import Mathlib

/-!
# Xilinx / Cadence UART-PS console driver (plat-zynqmp)

A shallow embedding of `plat/plat-zynqmp/drivers/serial/xilinx_uartps.c`:
the baud-rate divisor search of `setup_zynq_uartps`, the register
initialisation, the device-tree discovery of `_libplat_init_console`, and the
polling character I/O entry points `ukplat_coutk`, `ukplat_coutd` and
`ukplat_cink`.

Machine integers are natural numbers (or integers) reduced explicitly where
the C arithmetic is performed on `uint32_t`.  Memory-mapped I/O is recorded in
a log of register accesses kept in the driver state; the values the hardware
answers on reads are given by a function of the register address and of the
number of earlier reads of that register.
-/

namespace XUartPs

/-! ## Machine integers -/

/-- Conversion of a value to `uint32_t`. -/
def to_u32 (i : Int) : Nat := (i % 4294967296).toNat

/-- Conversion of an unsigned 32-bit value to `int` (two's complement, as done
by the compilers of the platform). -/
def to_int (n : Nat) : Int :=
  if n % 4294967296 < 2147483648 then ((n % 4294967296 : Nat) : Int)
  else ((n % 4294967296 : Nat) : Int) - 4294967296

/-! ## Register offsets and bits used by the driver -/

def CDNC_UART_CTRL_OFF : Nat := 0x00
def CDNC_UART_CTRL_REG_STOPBRK : Nat := 1 <<< 8
def CDNC_UART_CTRL_REG_TORST : Nat := 1 <<< 6
def CDNC_UART_CTRL_REG_TX_EN : Nat := 1 <<< 4
def CDNC_UART_CTRL_REG_RX_EN : Nat := 1 <<< 2
def CDNC_UART_CTRL_REG_TXRST : Nat := 1 <<< 1
def CDNC_UART_CTRL_REG_RXRST : Nat := 1 <<< 0
def CDNC_UART_IDIS_OFF : Nat := 0x03
def CDNC_UART_ISTAT_OFF : Nat := 0x5
def CDNC_UART_INT_ALL : Nat := 0x1FFF
def CDNC_UART_BAUDGEN_OFF : Nat := 0x6
def CDNC_UART_RX_TIMEO_OFF : Nat := 0x7
def CDNC_UART_RX_WATER_OFF : Nat := 0x8
def CDNC_UART_MODEM_CTRL_OFF : Nat := 0x9
def CDNC_UART_MODEM_CTRL_REG_RTS : Nat := 1 <<< 1
def CDNC_UART_MODEM_CTRL_REG_DTR : Nat := 1 <<< 0
def CDNC_UART_MODEM_STAT_OFF : Nat := 0xa
def CDNC_UART_MODEM_STAT_REG_DDCD : Nat := 1 <<< 3
def CDNC_UART_MODEM_STAT_REG_TERI : Nat := 1 <<< 2
def CDNC_UART_MODEM_STAT_REG_DDSR : Nat := 1 <<< 1
def CDNC_UART_MODEM_STAT_REG_DCTS : Nat := 1 <<< 0
def CDNC_UART_CHAN_STAT_OFF : Nat := 0xb
def CDNC_UART_CHAN_STAT_REG_TXFULL : Nat := 1 <<< 4
def CDNC_UART_CHAN_STAT_REG_TXEMPTY : Nat := 1 <<< 3
def CDNC_UART_CHAN_STAT_REG_RXEMPTY : Nat := 1 <<< 1
def CDNC_UART_FIFO_OFF : Nat := 0xC
def CDNC_UART_BAUDDIV_OFF : Nat := 0xD
def CDNC_UART_TX_WATER_OFF : Nat := 0xF
def UART_FIFO_SIZE : Nat := 64

/-! ## Driver state and register access -/

/-- One access to a memory-mapped register. -/
inductive IoEvent where
  | read (addr val : Nat)
  | write (addr val : Nat)
  deriving DecidableEq, Repr

/-- The file-scope variables of the driver together with the log of the
register accesses performed so far (oldest first). -/
structure Uart where
  uart_initialized : Nat
  uart_bas : Nat
  baud_rate : Int
  clock_rate : Int
  log : List IoEvent
  deriving DecidableEq, Repr

/-- The answers of the hardware: `hw addr k` is the value returned by read
number `k` (counting from zero) of the register at `addr`. -/
abbrev Hardware := Nat → Nat → Nat

/-- Whether an access is a read of the register at `addr`. -/
def is_read_of (addr : Nat) : IoEvent → Bool
  | .read a _ => a == addr
  | .write _ _ => false

/-- Number of reads of the register at `addr` recorded in a log. -/
def reads_of (addr : Nat) (log : List IoEvent) : Nat :=
  log.countP (is_read_of addr)

/-- Modelled from the spec: `ioreg_write32` is declared in `arm/cpu.h`, outside
the driver; it is the store of one 32-bit word to the register designated by
`addr` (the value of the C expression `bas + OFFSET`), appended to the log. -/
def ioreg_write32 (addr val : Nat) (s : Uart) : Uart :=
  { s with log := s.log ++ [IoEvent.write addr (val % 4294967296)] }

/-- Modelled from the spec: `ioreg_read32` is declared in `arm/cpu.h`, outside
the driver; it is the load of one 32-bit word from the register designated by
`addr`, answered by the hardware and appended to the log. -/
def ioreg_read32 (hw : Hardware) (addr : Nat) (s : Uart) : Nat × Uart :=
  let v := hw addr (reads_of addr s.log) % 4294967296
  (v, { s with log := s.log ++ [IoEvent.read addr v] })

/-! ## The baud-rate divisor search of `setup_zynq_uartps` -/

/-- The three `best_*` locals of the search. -/
structure Best where
  best_bauddiv : Nat
  best_baudgen : Nat
  best_error : Nat
  deriving DecidableEq, Repr

/-- Values of the `best_*` locals before the loop (`best_error = ~0`). -/
def best_init : Best :=
  { best_bauddiv := 0, best_baudgen := 0, best_error := 4294967295 }

/-- The divisor `baudrate * (bauddiv + 1)` of the first division, as a
`uint32_t`. -/
def gen_divisor (baudrate bauddiv : Nat) : Nat :=
  (baudrate * ((bauddiv + 1) % 4294967296)) % 4294967296

/-- The value assigned to `baudgen` in one iteration (meaningful when
`gen_divisor` is not zero). -/
def calc_baudgen (baudrate clk_ref bauddiv : Nat) : Nat :=
  ((clk_ref + gen_divisor baudrate bauddiv / 2) % 4294967296) /
    gen_divisor baudrate bauddiv

/-- The divisor `baudgen * (bauddiv + 1)` of the second division, as a
`uint32_t`. -/
def out_divisor (baudgen bauddiv : Nat) : Nat :=
  (baudgen * ((bauddiv + 1) % 4294967296)) % 4294967296

/-- The value assigned to `err` for a candidate with generator `baudgen`
(meaningful when `out_divisor` is not zero). -/
def calc_err (baudrate clk_ref bauddiv baudgen : Nat) : Nat :=
  let baud_out := clk_ref / out_divisor baudgen bauddiv
  if baud_out > baudrate then baud_out - baudrate else baudrate - baud_out

/-- One iteration of the loop body for the given `bauddiv`; `none` is a
division by zero. -/
def search_step (baudrate clk_ref bauddiv : Nat) (b : Best) : Option Best :=
  if gen_divisor baudrate bauddiv = 0 then none
  else
    let baudgen := calc_baudgen baudrate clk_ref bauddiv
    if baudgen < 1 ∨ baudgen > 0xffff then some b
    else if out_divisor baudgen bauddiv = 0 then none
    else
      let err := calc_err baudrate clk_ref bauddiv baudgen
      if err < b.best_error then
        some { best_error := err, best_bauddiv := bauddiv, best_baudgen := baudgen }
      else some b

/-- The loop run over the successive values of `bauddiv`. -/
def search_loop (baudrate clk_ref : Nat) : List Nat → Best → Option Best
  | [], b => some b
  | bauddiv :: rest, b =>
    match search_step baudrate clk_ref bauddiv b with
    | none => none
    | some b' => search_loop baudrate clk_ref rest b'

/-- The values taken by `bauddiv` in
`for (bauddiv = 4; bauddiv <= 255; bauddiv++)`. -/
def bauddiv_values : List Nat := List.range' 4 252

/-- Embedding of `setup_zynq_uartps`: the return code and the state after the
call, or `none` when the search divides by zero. -/
def setup_zynq_uartps (bas baudrate clk_ref : Nat) (s : Uart) : Option (Int × Uart) :=
  match search_loop baudrate clk_ref bauddiv_values best_init with
  | none => none
  | some b =>
    if b.best_bauddiv > 0 then
      some (0, ioreg_write32 (bas + CDNC_UART_BAUDGEN_OFF) b.best_baudgen
                (ioreg_write32 (bas + CDNC_UART_BAUDDIV_OFF) b.best_bauddiv s))
    else some (-1, s)

/-- Driver state before boot when no static base address is configured. -/
def uart_static_init : Uart :=
  { uart_initialized := 0, uart_bas := 0, baud_rate := 0, clock_rate := 0, log := [] }

/-! ## Register initialisation -/

/-- Embedding of `init_zynq_uartps`: the fixed sequence of register writes that
resets the controller and brings receiver and transmitter online. -/
def init_zynq_uartps (bas : Nat) (s : Uart) : Uart :=
  let s := ioreg_write32 (bas + CDNC_UART_CTRL_OFF)
    (CDNC_UART_CTRL_REG_RXRST ||| CDNC_UART_CTRL_REG_TXRST) s
  let s := ioreg_write32 (bas + CDNC_UART_IDIS_OFF) CDNC_UART_INT_ALL s
  let s := ioreg_write32 (bas + CDNC_UART_ISTAT_OFF) CDNC_UART_INT_ALL s
  let s := ioreg_write32 (bas + CDNC_UART_MODEM_STAT_OFF)
    (CDNC_UART_MODEM_STAT_REG_DDCD ||| CDNC_UART_MODEM_STAT_REG_TERI |||
      CDNC_UART_MODEM_STAT_REG_DDSR ||| CDNC_UART_MODEM_STAT_REG_DCTS) s
  let s := ioreg_write32 (bas + CDNC_UART_RX_WATER_OFF) (UART_FIFO_SIZE / 2) s
  let s := ioreg_write32 (bas + CDNC_UART_RX_TIMEO_OFF) 10 s
  let s := ioreg_write32 (bas + CDNC_UART_TX_WATER_OFF) (UART_FIFO_SIZE / 2) s
  let s := ioreg_write32 (bas + CDNC_UART_CTRL_OFF)
    (CDNC_UART_CTRL_REG_RX_EN ||| CDNC_UART_CTRL_REG_TX_EN |||
      CDNC_UART_CTRL_REG_TORST ||| CDNC_UART_CTRL_REG_STOPBRK) s
  ioreg_write32 (bas + CDNC_UART_MODEM_CTRL_OFF)
    (CDNC_UART_MODEM_CTRL_REG_DTR ||| CDNC_UART_MODEM_CTRL_REG_RTS) s

/-! ## Device-tree discovery and console initialisation -/

/-- A property found in the device tree: its length in bytes and the bytes
stored from its first byte on. -/
structure FdtProp where
  len : Int
  byte : Nat → Nat

/-- The big-endian 32-bit cell number `i` of a property
(`fdt32_to_cpu(p[i])`). -/
def FdtProp.cell32 (p : FdtProp) (i : Nat) : Nat :=
  (p.byte (4 * i) % 256) * 16777216 + (p.byte (4 * i + 1) % 256) * 65536 +
    (p.byte (4 * i + 2) % 256) * 256 + p.byte (4 * i + 3) % 256

/-- The big-endian 64-bit value number `i` of a property
(`fdt64_to_cpu(p[i])`). -/
def FdtProp.cell64 (p : FdtProp) (i : Nat) : Nat :=
  p.cell32 (2 * i) * 4294967296 + p.cell32 (2 * i + 1)

/-- The device-tree library as seen by the driver: the lookups of libfdt on
the blob handed over at boot, and the two declarations of the platform headers
that the driver relies on. -/
structure Fdt where
  /-- Result of `fdt_node_offset_by_compatible(dtb, start, compatible)`. -/
  node_offset_by_compatible : Int → String → Int
  /-- Result of `fdt_address_cells(dtb, offset)`. -/
  address_cells : Int → Int
  /-- Result of `fdt_size_cells(dtb, offset)`. -/
  size_cells : Int → Int
  /-- Result of `fdt_getprop(dtb, offset, name, &len)`; `none` is `NULL`. -/
  getprop : Int → String → Option FdtProp
  /-- Result of `fdt_node_offset_by_phandle(dtb, phandle)`. -/
  node_offset_by_phandle : Nat → Int
  /-- The constant `FDT_MAX_NCELLS` of libfdt. -/
  max_ncells : Int
  /-- Conversion of a 64-bit address to the register type `uk_reg32_t`. -/
  to_reg : Nat → Nat

/-- The `UK_CRASH` sites of `_libplat_init_console`, in source order. -/
inductive Crash where
  /-- "No console UART found!" -/
  | no_console_uart
  /-- "Could not find proper address cells!" -/
  | bad_address_cells
  /-- "Could not find proper size cells!" -/
  | bad_size_cells
  /-- "Bad reg property" -/
  | bad_reg
  /-- "uart clock was not found" -/
  | clock_not_found
  /-- "uart clock was not found through the handle" -/
  | clock_handle_not_found
  /-- "Clock cell property was missing" -/
  | clock_cells_missing
  /-- "Clock frequency property was missing" -/
  | clock_frequency_missing
  /-- "UART setup failed!" -/
  | setup_failed
  deriving DecidableEq, Repr

/-- How console initialisation ends, with the driver state at that point:
a fatal `UK_CRASH` (declared in `uk/assert.h`; it terminates the boot at the
call site and never returns), a division by zero inside the divisor search, or
a normal return. -/
inductive Boot where
  | crash (c : Crash) (s : Uart)
  | div_by_zero (s : Uart)
  | done (s : Uart)
  deriving DecidableEq, Repr

/-- The tail of `_libplat_init_console` shared by both configurations:
register initialisation, divisor setup and the transition to ready. -/
def console_bring_up (reg_uart_bas : Nat) (s : Uart) : Boot :=
  let s := init_zynq_uartps reg_uart_bas s
  match setup_zynq_uartps reg_uart_bas (to_u32 s.baud_rate) (to_u32 s.clock_rate) s with
  | none => Boot.div_by_zero s
  | some (rc, s) =>
    if rc < 0 then Boot.crash Crash.setup_failed s
    else Boot.done { s with uart_initialized := 1 }

/-- Embedding of `_libplat_init_console` with `CONFIG_ZYNQMP_LIBOFW` undefined
(discovery through the device tree).  The final `uk_pr_info` is not part of
the model. -/
def _libplat_init_console (fdt : Fdt) (s : Uart) : Boot :=
  let offset := fdt.node_offset_by_compatible (-1) "xlnx,xuartps"
  if offset < 0 then Boot.crash Crash.no_console_uart s
  else
    let naddr := fdt.address_cells offset
    if naddr < 0 ∨ naddr ≥ fdt.max_ncells then Boot.crash Crash.bad_address_cells s
    else
      let nsize := fdt.size_cells offset
      if nsize < 0 ∨ nsize ≥ fdt.max_ncells then Boot.crash Crash.bad_size_cells s
      else
        match fdt.getprop offset "reg" with
        | none => Boot.crash Crash.bad_reg s
        | some regs =>
          if regs.len < 4 * (naddr + nsize) then Boot.crash Crash.bad_reg s
          else
            let reg_uart_bas := regs.cell64 0
            let s := { s with uart_bas := fdt.to_reg reg_uart_bas }
            let s :=
              match fdt.getprop offset "current-speed" with
              | none => { s with baud_rate := 115200 }
              | some baud_rate_ref => { s with baud_rate := to_int (baud_rate_ref.cell32 0) }
            match fdt.getprop offset "clocks" with
            | none => Boot.crash Crash.clock_not_found s
            | some clock_ref =>
              let clock_phandle := clock_ref.cell32 0
              let offset := fdt.node_offset_by_phandle clock_phandle
              if offset < 0 then Boot.crash Crash.clock_handle_not_found s
              else
                match fdt.getprop offset "#clock-cells" with
                | none => Boot.crash Crash.clock_cells_missing s
                | some clock_cells_prop =>
                  let clock_cells := to_int (clock_cells_prop.cell32 0)
                  if clock_cells = 0 then
                    match fdt.getprop offset "clock-frequency" with
                    | none => Boot.crash Crash.clock_frequency_missing s
                    | some clock_freq_ref =>
                      console_bring_up (fdt.to_reg reg_uart_bas)
                        { s with clock_rate := to_int (clock_freq_ref.cell32 0) }
                  else console_bring_up (fdt.to_reg reg_uart_bas) s

/-! ## Character output -/

/-- The first busy-wait of `xuartps_putc`: poll the channel status until the
transmit FIFO is no longer full.  `fuel` bounds the number of polls; `none`
means the bound was reached with the FIFO still full. -/
def wait_tx_not_full (hw : Hardware) : Nat → Uart → Option Uart
  | 0, _ => none
  | fuel + 1, s =>
    let r := ioreg_read32 hw (s.uart_bas + CDNC_UART_CHAN_STAT_OFF) s
    if r.1 &&& CDNC_UART_CHAN_STAT_REG_TXFULL ≠ 0 then wait_tx_not_full hw fuel r.2
    else some r.2

/-- The second busy-wait of `xuartps_putc`: poll the channel status until the
transmit FIFO is empty. -/
def wait_tx_empty (hw : Hardware) : Nat → Uart → Option Uart
  | 0, _ => none
  | fuel + 1, s =>
    let r := ioreg_read32 hw (s.uart_bas + CDNC_UART_CHAN_STAT_OFF) s
    if r.1 &&& CDNC_UART_CHAN_STAT_REG_TXEMPTY = 0 then wait_tx_empty hw fuel r.2
    else some r.2

/-- Embedding of `xuartps_putc`; `a` is the character as an unsigned byte
(`char` is unsigned on the AArch64 target). -/
def xuartps_putc (hw : Hardware) (fuel : Nat) (a : Nat) (s : Uart) : Option Uart :=
  if s.uart_initialized = 0 then some s
  else
    match wait_tx_not_full hw fuel s with
    | none => none
    | some s =>
      wait_tx_empty hw fuel (ioreg_write32 (s.uart_bas + CDNC_UART_FIFO_OFF) (a % 256) s)

/-- The loop of `ukplat_coutk`: `n` characters remain, the next one is
`buf[i]`. -/
def coutk_loop (hw : Hardware) (fuel : Nat) (buf : Nat → Nat) :
    Nat → Nat → Uart → Option Uart
  | 0, _, s => some s
  | n + 1, i, s =>
    match xuartps_putc hw fuel (buf i) s with
    | none => none
    | some s => coutk_loop hw fuel buf n (i + 1) s

/-- Embedding of `ukplat_coutk`: the returned `int` and the state after the
call; `none` when a busy-wait exhausts `fuel`. -/
def ukplat_coutk (hw : Hardware) (fuel : Nat) (buf : Nat → Nat) (len : Nat) (s : Uart) :
    Option (Int × Uart) :=
  match coutk_loop hw fuel buf len 0 s with
  | none => none
  | some s => some (to_int len, s)

/-- Embedding of `ukplat_coutd`, which forwards to `ukplat_coutk`. -/
def ukplat_coutd (hw : Hardware) (fuel : Nat) (str : Nat → Nat) (len : Nat) (s : Uart) :
    Option (Int × Uart) :=
  ukplat_coutk hw fuel str len s

/-! ## Character input -/

/-- Embedding of `xuartps_getc`: the returned `int` and the state after the
call. -/
def xuartps_getc (hw : Hardware) (s : Uart) : Int × Uart :=
  if s.uart_initialized = 0 then (-1, s)
  else
    let r := ioreg_read32 hw (s.uart_bas + CDNC_UART_CHAN_STAT_OFF) s
    if r.1 &&& CDNC_UART_CHAN_STAT_REG_RXEMPTY ≠ 0 then (-1, r.2)
    else
      let d := ioreg_read32 hw (r.2.uart_bas + CDNC_UART_FIFO_OFF) r.2
      (((d.1 &&& 0xff : Nat) : Int), d.2)

/-- Store of one byte at `buf[i]`. -/
def buf_store (buf : Nat → Nat) (i v : Nat) : Nat → Nat :=
  fun j => if j = i then v else buf j

/-- The loop of `ukplat_cink`.  The first argument is `maxlen - num`, so that
the test `num < maxlen` is the test that it is not zero. -/
def cink_loop (hw : Hardware) : Nat → Nat → (Nat → Nat) → Uart → Nat × (Nat → Nat) × Uart
  | 0, num, buf, s => (num, buf, s)
  | room + 1, num, buf, s =>
    let r := xuartps_getc hw s
    if r.1 ≥ 0 then cink_loop hw room (num + 1) (buf_store buf num (r.1 % 256).toNat) r.2
    else (num, buf, r.2)

/-- Embedding of `ukplat_cink`: the returned `int`, the buffer and the state
after the call. -/
def ukplat_cink (hw : Hardware) (buf : Nat → Nat) (maxlen : Nat) (s : Uart) :
    Int × (Nat → Nat) × Uart :=
  let r := cink_loop hw maxlen 0 buf s
  (to_int r.1, r.2.1, r.2.2)

/-! ## Auxiliary definitions used to state the properties -/

/-- A generator value accepted by the range test of the loop. -/
def gen_ok (baudgen : Nat) : Prop := 1 ≤ baudgen ∧ baudgen ≤ 65535

instance (baudgen : Nat) : Decidable (gen_ok baudgen) := by
  unfold gen_ok; infer_instance

/-- The error the loop computes for `bauddiv`. -/
def err_of (baudrate clk_ref bauddiv : Nat) : Nat :=
  calc_err baudrate clk_ref bauddiv (calc_baudgen baudrate clk_ref bauddiv)

/-- What the `best_*` locals hold once every `bauddiv` in `[4, hi)` has been
tried: either no candidate was accepted and the locals are untouched, or they
describe the first accepted candidate of least error. -/
def SearchInv (baudrate clk_ref hi : Nat) (b : Best) : Prop :=
  (b = best_init ∧
    ∀ d, 4 ≤ d → d < hi → ¬ gen_ok (calc_baudgen baudrate clk_ref d)) ∨
  (4 ≤ b.best_bauddiv ∧ b.best_bauddiv < hi ∧
    gen_ok (calc_baudgen baudrate clk_ref b.best_bauddiv) ∧
    b.best_baudgen = calc_baudgen baudrate clk_ref b.best_bauddiv ∧
    b.best_error = err_of baudrate clk_ref b.best_bauddiv ∧
    (∀ d, 4 ≤ d → d < hi → gen_ok (calc_baudgen baudrate clk_ref d) →
      b.best_error ≤ err_of baudrate clk_ref d) ∧
    (∀ d, 4 ≤ d → d < b.best_bauddiv → gen_ok (calc_baudgen baudrate clk_ref d) →
      b.best_error < err_of baudrate clk_ref d))

/-- The state after the two register writes of a successful setup. -/
def setup_writes (bas bauddiv baudgen : Nat) (s : Uart) : Uart :=
  { s with log := s.log ++ [IoEvent.write (bas + CDNC_UART_BAUDDIV_OFF) bauddiv,
                            IoEvent.write (bas + CDNC_UART_BAUDGEN_OFF) baudgen] }

/-- The rounded generator for `bauddiv` in unbounded arithmetic. -/
def spec_generator (baudrate clk_ref bauddiv : Nat) : Nat :=
  (clk_ref + baudrate * (bauddiv + 1) / 2) / (baudrate * (bauddiv + 1))

/-- Absolute difference of two natural numbers. -/
def abs_diff (a b : Nat) : Nat := if a > b then a - b else b - a

/-- The baud rate obtained from a divisor/generator pair. -/
def achieved_baud (clk_ref bauddiv baudgen : Nat) : Nat :=
  clk_ref / (baudgen * (bauddiv + 1))

/-- The absolute error of the candidate `bauddiv` in unbounded arithmetic. -/
def spec_error (baudrate clk_ref bauddiv : Nat) : Nat :=
  abs_diff (achieved_baud clk_ref bauddiv (spec_generator baudrate clk_ref bauddiv)) baudrate

/-- An in-range candidate: `bauddiv` in [4,255] with generator in [1,65535]. -/
def spec_candidate (baudrate clk_ref bauddiv : Nat) : Prop :=
  4 ≤ bauddiv ∧ bauddiv ≤ 255 ∧ 1 ≤ spec_generator baudrate clk_ref bauddiv ∧
    spec_generator baudrate clk_ref bauddiv ≤ 65535

/-- A hardware that answers zero to every read. -/
def hw_zero : Hardware := fun _ _ => 0

/-- A buffer filled with the letter A. -/
def buf_A : Nat → Nat := fun _ => 65

/-- The checks of `_libplat_init_console` that precede the lookup of the
`clocks` property: the node exists, both cell counts are supported and the
`reg` property is present and long enough. -/
def reg_checks_pass (fdt : Fdt) : Prop :=
  0 ≤ fdt.node_offset_by_compatible (-1) "xlnx,xuartps" ∧
  (0 ≤ fdt.address_cells (fdt.node_offset_by_compatible (-1) "xlnx,xuartps") ∧
    fdt.address_cells (fdt.node_offset_by_compatible (-1) "xlnx,xuartps") < fdt.max_ncells) ∧
  (0 ≤ fdt.size_cells (fdt.node_offset_by_compatible (-1) "xlnx,xuartps") ∧
    fdt.size_cells (fdt.node_offset_by_compatible (-1) "xlnx,xuartps") < fdt.max_ncells) ∧
  ∃ regs, fdt.getprop (fdt.node_offset_by_compatible (-1) "xlnx,xuartps") "reg" = some regs ∧
    4 * (fdt.address_cells (fdt.node_offset_by_compatible (-1) "xlnx,xuartps") +
      fdt.size_cells (fdt.node_offset_by_compatible (-1) "xlnx,xuartps")) ≤ regs.len

/-- The offset of the console node, as `_libplat_init_console` looks it up. -/
def uart_node (fdt : Fdt) : Int :=
  fdt.node_offset_by_compatible (-1) "xlnx,xuartps"

/-- The address-cell count of the console node is outside the supported
range. -/
def address_cells_bad (fdt : Fdt) : Prop :=
  fdt.address_cells (uart_node fdt) < 0 ∨ fdt.address_cells (uart_node fdt) ≥ fdt.max_ncells

/-- The size-cell count of the console node is outside the supported range. -/
def size_cells_bad (fdt : Fdt) : Prop :=
  fdt.size_cells (uart_node fdt) < 0 ∨ fdt.size_cells (uart_node fdt) ≥ fdt.max_ncells

/-- The `reg` property of the console node is absent or shorter than
`address_cells + size_cells` cells. -/
def reg_bad (fdt : Fdt) : Prop :=
  ∀ regs, fdt.getprop (uart_node fdt) "reg" = some regs →
    regs.len < 4 * (fdt.address_cells (uart_node fdt) + fdt.size_cells (uart_node fdt))

/-- A property made of the given bytes. -/
def prop_of_bytes (bytes : List Nat) : FdtProp :=
  { len := bytes.length, byte := fun i => bytes.getD i 0 }

/-- A tree whose UART node has neither a `reg` nor a `clocks` property. -/
def fdt_no_props : Fdt :=
  { node_offset_by_compatible := fun _ _ => 0
    address_cells := fun _ => 2
    size_cells := fun _ => 1
    getprop := fun _ _ => none
    node_offset_by_phandle := fun _ => -1
    max_ncells := 4
    to_reg := fun a => a }

/-- A tree whose UART node has a well-formed `reg` property, the requested
speed `current-speed = 0x80000000` and a fixed 100 MHz clock behind phandle 1
at offset 8. -/
def fdt_speed_2_31 : Fdt :=
  { node_offset_by_compatible := fun _ _ => 0
    address_cells := fun _ => 2
    size_cells := fun _ => 1
    getprop := fun off name =>
      if off = 0 then
        if name = "reg" then some (prop_of_bytes [0, 0, 0, 0, 0, 0, 0x10, 0, 0, 0, 0x10, 0])
        else if name = "current-speed" then some (prop_of_bytes [0x80, 0, 0, 0])
        else if name = "clocks" then some (prop_of_bytes [0, 0, 0, 1])
        else none
      else
        if name = "#clock-cells" then some (prop_of_bytes [0, 0, 0, 0])
        else if name = "clock-frequency" then some (prop_of_bytes [0x05, 0xf5, 0xe1, 0x00])
        else none
    node_offset_by_phandle := fun ph => if ph = 1 then 8 else -1
    max_ncells := 4
    to_reg := fun a => a }

/-- A tree whose UART node at offset 0 has a 12-byte `reg` property with base
address 0x1000 and no other property. -/
def fdt_reg_only : Fdt :=
  { node_offset_by_compatible := fun _ _ => 0
    address_cells := fun _ => 2
    size_cells := fun _ => 1
    getprop := fun _ name =>
      if name = "reg" then some (prop_of_bytes [0, 0, 0, 0, 0, 0, 0x10, 0, 0, 0, 0x10, 0])
      else none
    node_offset_by_phandle := fun _ => -1
    max_ncells := 4
    to_reg := fun a => a }

/-- Address of the channel status register. -/
def stat_addr (s : Uart) : Nat := s.uart_bas + CDNC_UART_CHAN_STAT_OFF

/-- Address of the data FIFO register. -/
def fifo_addr (s : Uart) : Nat := s.uart_bas + CDNC_UART_FIFO_OFF

/-- Whether a channel status word has the receive-FIFO-empty bit set. -/
def rx_empty (v : Nat) : Bool :=
  decide ((v % 4294967296) &&& CDNC_UART_CHAN_STAT_REG_RXEMPTY ≠ 0)

/-- The number of consecutive status words, from index `start` on, with the
receive-FIFO-empty bit clear before the first one with the bit set, capped at
`bound`: the `min(maxlen, k)` of the specification. -/
def rx_avail (stat : Nat → Nat) : Nat → Nat → Nat
  | 0, _ => 0
  | bound + 1, start =>
    if rx_empty (stat start) then 0 else 1 + rx_avail stat bound (start + 1)

/-- The register accesses of `n` successful `xuartps_getc` calls: a status
read followed by a FIFO read, each time. -/
def cink_events (sa fa : Nat) (stat fifo : Nat → Nat) : Nat → Nat → Nat → List IoEvent
  | 0, _, _ => []
  | n + 1, i, j =>
    IoEvent.read sa (stat i % 4294967296) :: IoEvent.read fa (fifo j % 4294967296) ::
      cink_events sa fa stat fifo n (i + 1) (j + 1)

/-- The number of bytes `ukplat_cink` is expected to deliver from state `s`. -/
def cink_count (hw : Hardware) (maxlen : Nat) (s : Uart) : Nat :=
  rx_avail (hw (stat_addr s)) maxlen (reads_of (stat_addr s) s.log)

/-- The final status read, present when the loop stops on an empty FIFO. -/
def cink_last_read (hw : Hardware) (maxlen : Nat) (s : Uart) : List IoEvent :=
  if cink_count hw maxlen s < maxlen then
    [IoEvent.read (stat_addr s)
      (hw (stat_addr s) (reads_of (stat_addr s) s.log + cink_count hw maxlen s) % 4294967296)]
  else []

/-- The driver state after boot on a console at 0x1000. -/
def uart_ready : Uart :=
  { uart_initialized := 1, uart_bas := 0x1000, baud_rate := 115200, clock_rate := 100000000,
    log := [] }

/-- A hardware whose receive FIFO holds the two bytes 0x68 and 0x69: the
third status read reports it empty. -/
def hw_two_bytes : Hardware := fun addr k =>
  if addr = 0x100b then (if k < 2 then 0 else 2)
  else if k = 0 then 0x168 else 0x69

/-! ## Facts about one candidate of the divisor search -/

theorem out_divisor_eq {baudgen bauddiv : Nat} (hg : baudgen ≤ 65535) (hd : bauddiv ≤ 255) :
    out_divisor baudgen bauddiv = baudgen * (bauddiv + 1) := by
  unfold out_divisor
  have h1 : (bauddiv + 1) % 4294967296 = bauddiv + 1 := by omega
  have h2 : baudgen * (bauddiv + 1) ≤ 65535 * 256 :=
    Nat.mul_le_mul hg (by omega)
  rw [h1]
  omega

theorem out_divisor_pos {baudgen bauddiv : Nat} (hg : gen_ok baudgen) (hd : bauddiv ≤ 255) :
    0 < out_divisor baudgen bauddiv := by
  rw [out_divisor_eq hg.2 hd]
  exact Nat.mul_pos hg.1 (by omega)

theorem gen_divisor_lt (baudrate bauddiv : Nat) : gen_divisor baudrate bauddiv < 4294967296 := by
  unfold gen_divisor
  omega

/-- The error of an accepted candidate is never the initial `best_error`. -/
theorem err_of_lt_max {baudrate clk_ref bauddiv : Nat}
    (hb : baudrate < 4294967296) (hc : clk_ref < 4294967296) (hd : bauddiv ≤ 255)
    (hz : gen_divisor baudrate bauddiv ≠ 0)
    (hg : gen_ok (calc_baudgen baudrate clk_ref bauddiv)) :
    err_of baudrate clk_ref bauddiv < 4294967295 := by
  have hb0 : baudrate ≠ 0 := by
    rintro rfl
    exact hz (by simp [gen_divisor])
  have hout := out_divisor_eq hg.2 hd
  have hle : clk_ref / out_divisor (calc_baudgen baudrate clk_ref bauddiv) bauddiv ≤ clk_ref :=
    Nat.div_le_self _ _
  have hzero : clk_ref / out_divisor (calc_baudgen baudrate clk_ref bauddiv) bauddiv = 0 →
      baudrate ≠ 4294967295 := by
    intro ho hB
    have hpos := out_divisor_pos hg hd
    have hlt : clk_ref < out_divisor (calc_baudgen baudrate clk_ref bauddiv) bauddiv :=
      (Nat.div_eq_zero_iff hpos).1 ho
    have hD : gen_divisor baudrate bauddiv = 4294967296 - (bauddiv + 1) := by
      unfold gen_divisor
      subst hB
      omega
    have hg1 := hg.1
    unfold calc_baudgen at hg1
    have hX : gen_divisor baudrate bauddiv ≤
        (clk_ref + gen_divisor baudrate bauddiv / 2) % 4294967296 := by
      have := (Nat.le_div_iff_mul_le (Nat.pos_of_ne_zero hz)).1 hg1
      omega
    have hlt2 : calc_baudgen baudrate clk_ref bauddiv < 2 := by
      unfold calc_baudgen
      rw [Nat.div_lt_iff_lt_mul (Nat.pos_of_ne_zero hz)]
      omega
    have hone : calc_baudgen baudrate clk_ref bauddiv = 1 := by
      have := hg.1
      omega
    rw [hout, hone] at hlt
    omega
  unfold err_of calc_err
  simp only []
  generalize clk_ref / out_divisor (calc_baudgen baudrate clk_ref bauddiv) bauddiv = o
    at hle hzero ⊢
  split <;> omega

/-! ## The loop invariant of the divisor search -/

theorem searchInv_init (baudrate clk_ref : Nat) : SearchInv baudrate clk_ref 4 best_init :=
  Or.inl ⟨rfl, fun d h4 h => absurd h (by omega)⟩

theorem search_step_inv {baudrate clk_ref d : Nat} {b b' : Best}
    (hb : baudrate < 4294967296) (hc : clk_ref < 4294967296) (hd4 : 4 ≤ d) (hd : d ≤ 255)
    (hinv : SearchInv baudrate clk_ref d b)
    (hstep : search_step baudrate clk_ref d b = some b') :
    SearchInv baudrate clk_ref (d + 1) b' := by
  unfold search_step at hstep
  by_cases hz : gen_divisor baudrate d = 0
  · simp [hz] at hstep
  · by_cases hg : gen_ok (calc_baudgen baudrate clk_ref d)
    · have hrange : ¬ (calc_baudgen baudrate clk_ref d < 1 ∨
          calc_baudgen baudrate clk_ref d > 0xffff) := by
        have h1 := hg.1
        have h2 := hg.2
        omega
      have hout : out_divisor (calc_baudgen baudrate clk_ref d) d ≠ 0 :=
        Nat.pos_iff_ne_zero.1 (out_divisor_pos hg hd)
      have hmax := err_of_lt_max hb hc hd hz hg
      simp only [hz, hrange, hout, if_false] at hstep
      by_cases hlt : calc_err baudrate clk_ref d (calc_baudgen baudrate clk_ref d) <
          b.best_error
      · simp only [hlt, if_true, Option.some.injEq] at hstep
        subst hstep
        right
        refine ⟨hd4, by simp, hg, rfl, rfl, ?_, ?_⟩
        · intro d' h4 hlt' hg'
          rcases Nat.lt_succ_iff_lt_or_eq.1 hlt' with h | rfl
          · rcases hinv with ⟨_, hno⟩ | ⟨_, _, _, _, _, hmin, _⟩
            · exact absurd hg' (hno d' h4 h)
            · exact Nat.le_of_lt (Nat.lt_of_lt_of_le hlt (hmin d' h4 h hg'))
          · exact Nat.le_refl _
        · intro d' h4 hlt' hg'
          rcases hinv with ⟨_, hno⟩ | ⟨_, _, _, _, _, hmin, _⟩
          · exact absurd hg' (hno d' h4 hlt')
          · exact Nat.lt_of_lt_of_le hlt (hmin d' h4 hlt' hg')
      · simp only [hlt, if_false, Option.some.injEq] at hstep
        subst hstep
        rcases hinv with ⟨hinit, _⟩ | ⟨h4, hlt', hgb, hgen, herr, hmin, hfirst⟩
        · exfalso
          apply hlt
          rw [hinit]
          exact hmax
        · right
          refine ⟨h4, by omega, hgb, hgen, herr, ?_, hfirst⟩
          intro d' h4' hlt'' hg'
          rcases Nat.lt_succ_iff_lt_or_eq.1 hlt'' with h | rfl
          · exact hmin d' h4' h hg'
          · exact Nat.le_of_not_lt hlt
    · have hrange : calc_baudgen baudrate clk_ref d < 1 ∨
          calc_baudgen baudrate clk_ref d > 0xffff := by
        unfold gen_ok at hg
        omega
      simp only [hz, hrange, if_false, if_true, Option.some.injEq] at hstep
      subst hstep
      rcases hinv with ⟨hinit, hno⟩ | ⟨h4, hlt', hgb, hgen, herr, hmin, hfirst⟩
      · left
        refine ⟨hinit, ?_⟩
        intro d' h4 hlt'
        rcases Nat.lt_succ_iff_lt_or_eq.1 hlt' with h | rfl
        · exact hno d' h4 h
        · exact hg
      · right
        refine ⟨h4, by omega, hgb, hgen, herr, ?_, hfirst⟩
        intro d' h4' hlt'' hg'
        rcases Nat.lt_succ_iff_lt_or_eq.1 hlt'' with h | rfl
        · exact hmin d' h4' h hg'
        · exact absurd hg' hg

theorem search_loop_inv {baudrate clk_ref : Nat}
    (hb : baudrate < 4294967296) (hc : clk_ref < 4294967296) :
    ∀ (n d : Nat) (b b' : Best), 4 ≤ d → d + n ≤ 256 → SearchInv baudrate clk_ref d b →
      search_loop baudrate clk_ref (List.range' d n) b = some b' →
      SearchInv baudrate clk_ref (d + n) b' := by
  intro n
  induction n with
  | zero =>
    intro d b b' _ _ hinv hloop
    simp only [List.range'_zero, search_loop, Option.some.injEq] at hloop
    subst hloop
    exact hinv
  | succ n ih =>
    intro d b b' h4 hle hinv hloop
    rw [List.range'_succ, search_loop] at hloop
    cases hstep : search_step baudrate clk_ref d b with
    | none => simp [hstep] at hloop
    | some b1 =>
      simp only [hstep] at hloop
      have h1 := search_step_inv hb hc h4 (by omega) hinv hstep
      have h2 := ih (d + 1) b1 b' (by omega) (by omega) h1 hloop
      have e : d + 1 + n = d + (n + 1) := by omega
      rw [e] at h2
      exact h2

/-- The search returns exactly when no first divisor is zero. -/
theorem search_loop_isSome {baudrate clk_ref : Nat} :
    ∀ (n d : Nat) (b : Best), d + n ≤ 256 →
      ((∃ b', search_loop baudrate clk_ref (List.range' d n) b = some b') ↔
        ∀ d', d ≤ d' → d' < d + n → gen_divisor baudrate d' ≠ 0) := by
  intro n
  induction n with
  | zero =>
    intro d b _
    simp only [List.range'_zero, search_loop]
    constructor
    · intro _ d' h1 h2
      omega
    · intro _
      exact ⟨b, rfl⟩
  | succ n ih =>
    intro d b hle
    rw [List.range'_succ, search_loop]
    by_cases hz : gen_divisor baudrate d = 0
    · have hnone : search_step baudrate clk_ref d b = none := by
        simp [search_step, hz]
      simp only [hnone]
      constructor
      · rintro ⟨b', h⟩
        cases h
      · intro h
        exact absurd hz (h d (Nat.le_refl _) (by omega))
    · have hsome : ∃ b1, search_step baudrate clk_ref d b = some b1 := by
        unfold search_step
        by_cases hr : calc_baudgen baudrate clk_ref d < 1 ∨
            calc_baudgen baudrate clk_ref d > 0xffff
        · exact ⟨b, by simp only [hz, hr, if_false, if_true]⟩
        · have hg : gen_ok (calc_baudgen baudrate clk_ref d) := by
            unfold gen_ok
            omega
          have hout : out_divisor (calc_baudgen baudrate clk_ref d) d ≠ 0 :=
            Nat.pos_iff_ne_zero.1 (out_divisor_pos hg (by omega))
          simp only [hz, hr, hout, if_false]
          split
          · exact ⟨_, rfl⟩
          · exact ⟨_, rfl⟩
      obtain ⟨b1, hb1⟩ := hsome
      simp only [hb1]
      rw [ih (d + 1) b1 (by omega)]
      constructor
      · intro h d' h1 h2
        rcases Nat.eq_or_lt_of_le h1 with rfl | hlt
        · exact hz
        · exact h d' hlt (by omega)
      · intro h d' h1 h2
        exact h d' (by omega) (by omega)

/-! ## The result of `setup_zynq_uartps` -/

theorem ioreg_write32_pair (bas bauddiv baudgen : Nat) (s : Uart)
    (hd : bauddiv ≤ 255) (hg : baudgen ≤ 65535) :
    ioreg_write32 (bas + CDNC_UART_BAUDGEN_OFF) baudgen
      (ioreg_write32 (bas + CDNC_UART_BAUDDIV_OFF) bauddiv s) =
    setup_writes bas bauddiv baudgen s := by
  have h1 : bauddiv % 4294967296 = bauddiv := by omega
  have h2 : baudgen % 4294967296 = baudgen := by omega
  simp [ioreg_write32, setup_writes, h1, h2]

/-- Every returning call of `setup_zynq_uartps` either finds no accepted
candidate, returns -1 and leaves the state alone, or returns 0 after writing
the first accepted candidate of least error. -/
theorem setup_cases {bas baudrate clk_ref : Nat} {s s' : Uart} {rc : Int}
    (hb : baudrate < 4294967296) (hc : clk_ref < 4294967296)
    (h : setup_zynq_uartps bas baudrate clk_ref s = some (rc, s')) :
    (rc = -1 ∧ s' = s ∧
      ∀ d, 4 ≤ d → d ≤ 255 → ¬ gen_ok (calc_baudgen baudrate clk_ref d)) ∨
    (rc = 0 ∧ ∃ d, 4 ≤ d ∧ d ≤ 255 ∧ gen_ok (calc_baudgen baudrate clk_ref d) ∧
      s' = setup_writes bas d (calc_baudgen baudrate clk_ref d) s ∧
      (∀ d', 4 ≤ d' → d' ≤ 255 → gen_ok (calc_baudgen baudrate clk_ref d') →
        err_of baudrate clk_ref d ≤ err_of baudrate clk_ref d') ∧
      (∀ d', 4 ≤ d' → d' < d → gen_ok (calc_baudgen baudrate clk_ref d') →
        err_of baudrate clk_ref d < err_of baudrate clk_ref d')) := by
  unfold setup_zynq_uartps at h
  cases hloop : search_loop baudrate clk_ref bauddiv_values best_init with
  | none => simp [hloop] at h
  | some b =>
    simp only [hloop] at h
    have hinv := search_loop_inv hb hc 252 4 best_init b (by omega) (by omega)
      (searchInv_init baudrate clk_ref) hloop
    rcases hinv with ⟨hinit, hno⟩ | ⟨h4, hlt, hg, hgen, herr, hmin, hfirst⟩
    · left
      subst hinit
      simp only [best_init, gt_iff_lt, Nat.lt_irrefl, if_false, Option.some.injEq,
        Prod.mk.injEq] at h
      exact ⟨h.1.symm, h.2.symm, fun d h4 hd => hno d h4 (by omega)⟩
    · right
      have hpos : b.best_bauddiv > 0 := by omega
      simp only [hpos, if_true, Option.some.injEq, Prod.mk.injEq] at h
      refine ⟨h.1.symm, b.best_bauddiv, h4, by omega, hg, ?_, ?_, ?_⟩
      · rw [← h.2, hgen]
        exact ioreg_write32_pair bas _ _ s (by omega) hg.2
      · intro d' h4' hd' hg'
        rw [← herr]
        exact hmin d' h4' (by omega) hg'
      · intro d' h4' hd' hg'
        rw [← herr]
        exact hfirst d' h4' hd' hg'

/-- The call returns exactly when no first divisor of the search is zero. -/
theorem setup_isSome_iff (bas baudrate clk_ref : Nat) (s : Uart) :
    (∃ r, setup_zynq_uartps bas baudrate clk_ref s = some r) ↔
      ∀ d, 4 ≤ d → d ≤ 255 → gen_divisor baudrate d ≠ 0 := by
  have hiff := @search_loop_isSome baudrate clk_ref 252 4 best_init
    (by omega)
  constructor
  · rintro ⟨r, hr⟩ d h4 hd
    unfold setup_zynq_uartps at hr
    cases hloop : search_loop baudrate clk_ref bauddiv_values best_init with
    | none => simp [hloop] at hr
    | some b => exact hiff.1 ⟨b, hloop⟩ d h4 (by omega)
  · intro hz
    obtain ⟨b, hloop⟩ := hiff.2 (fun d h4 hd => hz d h4 (by omega))
    unfold setup_zynq_uartps
    have hloop' : search_loop baudrate clk_ref bauddiv_values best_init = some b := hloop
    rw [hloop']
    simp only
    split
    · exact ⟨_, rfl⟩
    · exact ⟨_, rfl⟩

/-! ## The search without wrap-around -/

theorem gen_divisor_eq {baudrate bauddiv : Nat} (hw : baudrate * 256 < 4294967296)
    (hd : bauddiv ≤ 255) : gen_divisor baudrate bauddiv = baudrate * (bauddiv + 1) := by
  unfold gen_divisor
  have h1 : (bauddiv + 1) % 4294967296 = bauddiv + 1 := by omega
  have h2 : baudrate * (bauddiv + 1) ≤ baudrate * 256 := Nat.mul_le_mul_left _ (by omega)
  rw [h1]
  omega

theorem calc_baudgen_eq {baudrate clk_ref bauddiv : Nat} (hw : baudrate * 256 < 4294967296)
    (hw2 : clk_ref + baudrate * 256 / 2 < 4294967296) (hd : bauddiv ≤ 255) :
    calc_baudgen baudrate clk_ref bauddiv = spec_generator baudrate clk_ref bauddiv := by
  unfold calc_baudgen spec_generator
  rw [gen_divisor_eq hw hd]
  have h2 : baudrate * (bauddiv + 1) ≤ baudrate * 256 := Nat.mul_le_mul_left _ (by omega)
  have h3 : baudrate * (bauddiv + 1) / 2 ≤ baudrate * 256 / 2 := Nat.div_le_div_right h2
  have h4 : (clk_ref + baudrate * (bauddiv + 1) / 2) % 4294967296 =
      clk_ref + baudrate * (bauddiv + 1) / 2 := Nat.mod_eq_of_lt (by omega)
  rw [h4]

theorem err_of_eq {baudrate clk_ref bauddiv : Nat} (hw : baudrate * 256 < 4294967296)
    (hw2 : clk_ref + baudrate * 256 / 2 < 4294967296) (hd : bauddiv ≤ 255)
    (hg : spec_generator baudrate clk_ref bauddiv ≤ 65535) :
    err_of baudrate clk_ref bauddiv = spec_error baudrate clk_ref bauddiv := by
  unfold err_of calc_err spec_error abs_diff achieved_baud
  rw [calc_baudgen_eq hw hw2 hd, out_divisor_eq hg hd]

theorem gen_ok_iff_candidate {baudrate clk_ref bauddiv : Nat}
    (hw : baudrate * 256 < 4294967296)
    (hw2 : clk_ref + baudrate * 256 / 2 < 4294967296) (h4 : 4 ≤ bauddiv) (hd : bauddiv ≤ 255) :
    gen_ok (calc_baudgen baudrate clk_ref bauddiv) ↔ spec_candidate baudrate clk_ref bauddiv := by
  unfold gen_ok spec_candidate
  rw [calc_baudgen_eq hw hw2 hd]
  constructor
  · intro h
    exact ⟨h4, hd, h.1, h.2⟩
  · intro h
    exact ⟨h.2.2.1, h.2.2.2⟩

/-- For the standard baud rates and a reference clock between 10 MHz and
200 MHz the first candidate (`bauddiv = 4`) is accepted and is within 3%. -/
theorem first_candidate_close {baudrate clk_ref : Nat}
    (hB : baudrate = 9600 ∨ baudrate = 19200 ∨ baudrate = 38400 ∨ baudrate = 57600 ∨
      baudrate = 115200)
    (h1 : 10000000 ≤ clk_ref) (h2 : clk_ref ≤ 200000000) :
    gen_ok (calc_baudgen baudrate clk_ref 4) ∧
      100 * err_of baudrate clk_ref 4 ≤ 3 * baudrate := by
  have hgen : calc_baudgen baudrate clk_ref 4 =
      (clk_ref + baudrate * 5 / 2) / (baudrate * 5) := by
    rw [calc_baudgen_eq (by omega) (by omega) (by omega)]
    rfl
  have hg : 17 ≤ calc_baudgen baudrate clk_ref 4 ∧ calc_baudgen baudrate clk_ref 4 ≤ 65535 := by
    rw [hgen]
    rcases hB with rfl | rfl | rfl | rfl | rfl <;> omega
  refine ⟨⟨by omega, hg.2⟩, ?_⟩
  unfold err_of calc_err
  rw [out_divisor_eq hg.2 (by omega)]
  simp only []
  generalize hgdef : calc_baudgen baudrate clk_ref 4 = g at hg hgen ⊢
  have hpos : 0 < g * (4 + 1) := by omega
  have hK : clk_ref / (g * (4 + 1)) < baudrate + 3 * baudrate / 100 + 1 := by
    rw [Nat.div_lt_iff_lt_mul hpos]
    rcases hB with rfl | rfl | rfl | rfl | rfl <;> omega
  have hL : baudrate - 3 * baudrate / 100 ≤ clk_ref / (g * (4 + 1)) := by
    rw [Nat.le_div_iff_mul_le hpos]
    rcases hB with rfl | rfl | rfl | rfl | rfl <;> omega
  generalize clk_ref / (g * (4 + 1)) = o at hK hL ⊢
  split <;> rcases hB with rfl | rfl | rfl | rfl | rfl <;> omega

/-- The first divisor is zero for some `bauddiv` of the search exactly when
the baud rate is a multiple of `2^24`. -/
theorem gen_divisor_ne_zero {baudrate bauddiv : Nat} (hm : baudrate % 16777216 ≠ 0)
    (hd : bauddiv ≤ 255) : gen_divisor baudrate bauddiv ≠ 0 := by
  unfold gen_divisor
  have h1 : (bauddiv + 1) % 4294967296 = bauddiv + 1 := by omega
  rw [h1]
  intro h0
  have hdvd : 4294967296 ∣ baudrate * (bauddiv + 1) := Nat.dvd_of_mod_eq_zero h0
  apply hm
  apply Nat.mod_eq_zero_of_dvd
  -- split `bauddiv + 1` into its power of two and its odd part
  have hgpos : 0 < Nat.gcd 4294967296 (bauddiv + 1) :=
    Nat.gcd_pos_of_pos_left _ (by omega)
  have hgle : Nat.gcd 4294967296 (bauddiv + 1) ≤ 256 :=
    Nat.le_trans (Nat.le_of_dvd (by omega) (Nat.gcd_dvd_right _ _)) (by omega)
  have hgd : Nat.gcd 4294967296 (bauddiv + 1) ∣ 2 ^ 32 := Nat.gcd_dvd_left _ _
  obtain ⟨k, hk, hgk⟩ := (Nat.dvd_prime_pow Nat.prime_two).1 hgd
  have hk8 : k ≤ 8 := by
    by_contra hcon
    have : 2 ^ 9 ≤ 2 ^ k := Nat.pow_le_pow_right (by omega) (by omega)
    omega
  have hcop : Nat.Coprime (4294967296 / Nat.gcd 4294967296 (bauddiv + 1))
      ((bauddiv + 1) / Nat.gcd 4294967296 (bauddiv + 1)) :=
    Nat.coprime_div_gcd_div_gcd hgpos
  have hdvd2 : 4294967296 / Nat.gcd 4294967296 (bauddiv + 1) ∣
      baudrate * ((bauddiv + 1) / Nat.gcd 4294967296 (bauddiv + 1)) := by
    obtain ⟨c, hc⟩ := Nat.gcd_dvd_right 4294967296 (bauddiv + 1)
    obtain ⟨e, he⟩ := Nat.gcd_dvd_left 4294967296 (bauddiv + 1)
    rw [Nat.div_eq_of_eq_mul_right hgpos hc, Nat.div_eq_of_eq_mul_right hgpos he]
    have h3 : Nat.gcd 4294967296 (bauddiv + 1) * e ∣
        Nat.gcd 4294967296 (bauddiv + 1) * (baudrate * c) := by
      rw [← he]
      have : Nat.gcd 4294967296 (bauddiv + 1) * (baudrate * c) =
          baudrate * (Nat.gcd 4294967296 (bauddiv + 1) * c) := by ring
      rw [this, ← hc]
      exact hdvd
    exact (Nat.mul_dvd_mul_iff_left hgpos).1 h3
  have hdvd3 := hcop.dvd_of_dvd_mul_right hdvd2
  have h24 : 16777216 ∣ 4294967296 / Nat.gcd 4294967296 (bauddiv + 1) := by
    rw [hgk]
    have e1 : (4294967296 : Nat) = 2 ^ 32 := by norm_num
    have e2 : (16777216 : Nat) = 2 ^ 24 := by norm_num
    rw [e1, e2, Nat.pow_div hk (by omega)]
    exact Nat.pow_dvd_pow 2 (by omega)
  exact Nat.dvd_trans h24 hdvd3

/-! ## Properties of `setup_zynq_uartps` -/

/-- C1: whenever `setup_zynq_uartps` returns 0 for 32-bit `baudrate` and
`clk_ref`, it has performed exactly two register writes, the first to the
baud-rate-divisor register with a value in [4,255] and the second to the
baud-rate-generator register with a value in [1,65535]. -/
theorem setup_success_writes_in_range (bas baudrate clk_ref : Nat) (s s' : Uart)
    (hb : baudrate < 4294967296) (hc : clk_ref < 4294967296)
    (h : setup_zynq_uartps bas baudrate clk_ref s = some (0, s')) :
    ∃ bauddiv baudgen,
      s'.log = s.log ++ [IoEvent.write (bas + CDNC_UART_BAUDDIV_OFF) bauddiv,
                         IoEvent.write (bas + CDNC_UART_BAUDGEN_OFF) baudgen] ∧
      4 ≤ bauddiv ∧ bauddiv ≤ 255 ∧ 1 ≤ baudgen ∧ baudgen ≤ 65535 := by
  rcases setup_cases hb hc h with ⟨hrc, _⟩ | ⟨_, d, h4, hd, hg, hs, _⟩
  · omega
  · exact ⟨d, calc_baudgen baudrate clk_ref d, by rw [hs]; rfl, h4, hd, hg.1, hg.2⟩

/-- Witness of C1: 115200 baud from a 100 MHz reference clock succeeds. -/
theorem setup_success_writes_in_range_witness :
    setup_zynq_uartps 0x1000 115200 100000000 uart_static_init =
        some (0, setup_writes 0x1000 6 124 uart_static_init) ∧
      ∃ bauddiv baudgen,
        (setup_writes 0x1000 6 124 uart_static_init).log = uart_static_init.log ++
          [IoEvent.write (0x1000 + CDNC_UART_BAUDDIV_OFF) bauddiv,
           IoEvent.write (0x1000 + CDNC_UART_BAUDGEN_OFF) baudgen] ∧
        4 ≤ bauddiv ∧ bauddiv ≤ 255 ∧ 1 ≤ baudgen ∧ baudgen ≤ 65535 :=
  ⟨by decide,
   setup_success_writes_in_range 0x1000 115200 100000000 uart_static_init _
     (by decide) (by decide) (by decide)⟩

/-- C2: for a positive `baudrate` and a `clk_ref` whose 32-bit intermediate
values do not wrap, a successful `setup_zynq_uartps` writes an in-range
candidate `bauddiv` together with its rounded generator; the error of that
candidate is minimal among all in-range candidates, and every in-range
candidate with a lower `bauddiv` has a strictly larger error. -/
theorem setup_writes_first_best (bas baudrate clk_ref : Nat) (s s' : Uart)
    (hpos : 0 < baudrate) (hw : baudrate * 256 < 4294967296)
    (hw2 : clk_ref + baudrate * 256 / 2 < 4294967296)
    (h : setup_zynq_uartps bas baudrate clk_ref s = some (0, s')) :
    ∃ bauddiv, spec_candidate baudrate clk_ref bauddiv ∧
      s'.log = s.log ++ [IoEvent.write (bas + CDNC_UART_BAUDDIV_OFF) bauddiv,
        IoEvent.write (bas + CDNC_UART_BAUDGEN_OFF) (spec_generator baudrate clk_ref bauddiv)] ∧
      (∀ d, spec_candidate baudrate clk_ref d →
        spec_error baudrate clk_ref bauddiv ≤ spec_error baudrate clk_ref d) ∧
      (∀ d, spec_candidate baudrate clk_ref d → d < bauddiv →
        spec_error baudrate clk_ref bauddiv < spec_error baudrate clk_ref d) := by
  rcases setup_cases (by omega) (by omega) h with ⟨hrc, _⟩ | ⟨_, d, h4, hd, hg, hs, hmin, hfirst⟩
  · omega
  · have hcand := (gen_ok_iff_candidate hw hw2 h4 hd).1 hg
    refine ⟨d, hcand, ?_, ?_, ?_⟩
    · rw [hs, calc_baudgen_eq hw hw2 hd]
      rfl
    · intro d' hc'
      have hg' := (gen_ok_iff_candidate hw hw2 hc'.1 hc'.2.1).2 hc'
      rw [← err_of_eq hw hw2 hd hcand.2.2.2, ← err_of_eq hw hw2 hc'.2.1 hc'.2.2.2]
      exact hmin d' hc'.1 hc'.2.1 hg'
    · intro d' hc' hlt
      have hg' := (gen_ok_iff_candidate hw hw2 hc'.1 hc'.2.1).2 hc'
      rw [← err_of_eq hw hw2 hd hcand.2.2.2, ← err_of_eq hw hw2 hc'.2.1 hc'.2.2.2]
      exact hfirst d' hc'.1 hlt hg'

/-- Witness of C2: 115200 baud from 100 MHz gives divisor 6 and generator 124
with error 7. -/
theorem setup_writes_first_best_witness :
    (setup_zynq_uartps 0x1000 115200 100000000 uart_static_init =
        some (0, setup_writes 0x1000 6 124 uart_static_init) ∧
      spec_generator 115200 100000000 6 = 124 ∧ spec_error 115200 100000000 6 = 7) ∧
    ∃ bauddiv, spec_candidate 115200 100000000 bauddiv ∧
      (setup_writes 0x1000 6 124 uart_static_init).log = uart_static_init.log ++
        [IoEvent.write (0x1000 + CDNC_UART_BAUDDIV_OFF) bauddiv,
          IoEvent.write (0x1000 + CDNC_UART_BAUDGEN_OFF)
            (spec_generator 115200 100000000 bauddiv)] ∧
      (∀ d, spec_candidate 115200 100000000 d →
        spec_error 115200 100000000 bauddiv ≤ spec_error 115200 100000000 d) ∧
      (∀ d, spec_candidate 115200 100000000 d → d < bauddiv →
        spec_error 115200 100000000 bauddiv < spec_error 115200 100000000 d) :=
  ⟨⟨by decide, by decide, by decide⟩,
   setup_writes_first_best 0x1000 115200 100000000 uart_static_init _
     (by decide) (by decide) (by decide) (by decide)⟩

/-- C3: when no first divisor `baudrate * (bauddiv + 1)` of the search is zero,
`setup_zynq_uartps` returns, and it returns -1 if and only if every `bauddiv`
in [4,255] has a generator below 1 or above 65535; it returns 0 as soon as one
candidate has an in-range generator. -/
theorem setup_fails_iff_no_candidate (bas baudrate clk_ref : Nat) (s : Uart)
    (hb : baudrate < 4294967296) (hc : clk_ref < 4294967296)
    (hz : ∀ d, 4 ≤ d → d ≤ 255 → gen_divisor baudrate d ≠ 0) :
    ∃ rc s', setup_zynq_uartps bas baudrate clk_ref s = some (rc, s') ∧
      (rc = -1 ↔ ∀ d, 4 ≤ d → d ≤ 255 →
        calc_baudgen baudrate clk_ref d < 1 ∨ calc_baudgen baudrate clk_ref d > 65535) ∧
      (rc = 0 ↔ ∃ d, 4 ≤ d ∧ d ≤ 255 ∧
        1 ≤ calc_baudgen baudrate clk_ref d ∧ calc_baudgen baudrate clk_ref d ≤ 65535) := by
  obtain ⟨⟨rc, s'⟩, hr⟩ := (setup_isSome_iff bas baudrate clk_ref s).2 hz
  refine ⟨rc, s', hr, ?_, ?_⟩
  · rcases setup_cases hb hc hr with ⟨hrc, _, hno⟩ | ⟨hrc, d, h4, hd, hg, _⟩
    · constructor
      · intro _ d h4 hd
        have := hno d h4 hd
        unfold gen_ok at this
        omega
      · intro _
        exact hrc
    · constructor
      · intro h
        omega
      · intro h
        have := h d h4 hd
        have h1 := hg.1
        have h2 := hg.2
        omega
  · rcases setup_cases hb hc hr with ⟨hrc, _, hno⟩ | ⟨hrc, d, h4, hd, hg, _⟩
    · constructor
      · intro h
        omega
      · rintro ⟨d, h4, hd, h1, h2⟩
        exact absurd ⟨h1, h2⟩ (hno d h4 hd)
    · constructor
      · intro _
        exact ⟨d, h4, hd, hg.1, hg.2⟩
      · intro _
        exact hrc

/-- Witness of C3: no first divisor is zero for 115200 baud. -/
theorem setup_fails_iff_no_candidate_witness :
    ∃ rc s', setup_zynq_uartps 0x1000 115200 100000000 uart_static_init = some (rc, s') ∧
      (rc = -1 ↔ ∀ d, 4 ≤ d → d ≤ 255 →
        calc_baudgen 115200 100000000 d < 1 ∨ calc_baudgen 115200 100000000 d > 65535) ∧
      (rc = 0 ↔ ∃ d, 4 ≤ d ∧ d ≤ 255 ∧
        1 ≤ calc_baudgen 115200 100000000 d ∧ calc_baudgen 115200 100000000 d ≤ 65535) :=
  setup_fails_iff_no_candidate 0x1000 115200 100000000 uart_static_init
    (by decide) (by decide)
    (fun d _ hd => by unfold gen_divisor; omega)

/-- C4: for every reference clock between 10 MHz and 200 MHz and every
standard baud rate, `setup_zynq_uartps` succeeds and the baud rate achieved by
the pair it writes differs from the target by at most 3% of the target. -/
theorem setup_standard_rates_within_3_percent (bas baudrate clk_ref : Nat) (s : Uart)
    (hB : baudrate = 9600 ∨ baudrate = 19200 ∨ baudrate = 38400 ∨ baudrate = 57600 ∨
      baudrate = 115200)
    (h1 : 10000000 ≤ clk_ref) (h2 : clk_ref ≤ 200000000) :
    ∃ bauddiv baudgen s',
      setup_zynq_uartps bas baudrate clk_ref s = some (0, s') ∧
      s'.log = s.log ++ [IoEvent.write (bas + CDNC_UART_BAUDDIV_OFF) bauddiv,
                         IoEvent.write (bas + CDNC_UART_BAUDGEN_OFF) baudgen] ∧
      100 * abs_diff (achieved_baud clk_ref bauddiv baudgen) baudrate ≤ 3 * baudrate := by
  have hw : baudrate * 256 < 4294967296 := by omega
  have hw2 : clk_ref + baudrate * 256 / 2 < 4294967296 := by omega
  have hz : ∀ d, 4 ≤ d → d ≤ 255 → gen_divisor baudrate d ≠ 0 := by
    intro d _ hd
    rw [gen_divisor_eq hw hd]
    exact Nat.pos_iff_ne_zero.1 (Nat.mul_pos (by omega) (by omega))
  obtain ⟨⟨rc, s'⟩, hr⟩ := (setup_isSome_iff bas baudrate clk_ref s).2 hz
  obtain ⟨hfirst, hclose⟩ := first_candidate_close hB h1 h2
  rcases setup_cases (by omega) (by omega) hr with ⟨_, _, hno⟩ | ⟨hrc, d, h4, hd, hg, hs, hmin, _⟩
  · exact absurd hfirst (hno 4 (by omega) (by omega))
  · subst hrc
    refine ⟨d, calc_baudgen baudrate clk_ref d, s', hr, by rw [hs]; rfl, ?_⟩
    have hle := hmin 4 (by omega) (by omega) hfirst
    have herr : err_of baudrate clk_ref d =
        abs_diff (achieved_baud clk_ref d (calc_baudgen baudrate clk_ref d)) baudrate := by
      unfold err_of calc_err abs_diff achieved_baud
      rw [out_divisor_eq hg.2 hd]
    rw [← herr]
    omega

/-- Witness of C4 at 115200 baud and 100 MHz. -/
theorem setup_standard_rates_within_3_percent_witness :
    ∃ bauddiv baudgen s',
      setup_zynq_uartps 0x1000 115200 100000000 uart_static_init = some (0, s') ∧
      s'.log = uart_static_init.log ++
        [IoEvent.write (0x1000 + CDNC_UART_BAUDDIV_OFF) bauddiv,
         IoEvent.write (0x1000 + CDNC_UART_BAUDGEN_OFF) baudgen] ∧
      100 * abs_diff (achieved_baud 100000000 bauddiv baudgen) 115200 ≤ 3 * 115200 :=
  setup_standard_rates_within_3_percent 0x1000 115200 100000000 uart_static_init
    (by decide) (by decide) (by decide)

/-- C5 fails as stated: with `baudrate = 115200` and `clk_ref = 500000`, where
`5 * baudrate > clk_ref`, the call succeeds with divisor 4 and generator 1. -/
theorem setup_succeeds_above_fifth_of_clock :
    0 < 115200 ∧ 115200 > 500000 / 5 ∧ 5 * 115200 > 500000 ∧
      115200 * 256 < 4294967296 ∧ 500000 + 115200 * 256 / 2 < 4294967296 ∧
      setup_zynq_uartps 0x1000 115200 500000 uart_static_init =
        some (0, setup_writes 0x1000 4 1 uart_static_init) := by
  decide

/-- C5 amended: for every positive `baudrate` below `2^24` (no 32-bit wrap) and
every `clk_ref` with `2 * clk_ref < 5 * baudrate`, `setup_zynq_uartps` returns
-1 and writes no register. -/
theorem setup_fails_below_half_of_first_divisor (bas baudrate clk_ref : Nat) (s : Uart)
    (hpos : 0 < baudrate) (hw : baudrate * 256 < 4294967296)
    (hlt : 2 * clk_ref < 5 * baudrate) :
    setup_zynq_uartps bas baudrate clk_ref s = some (-1, s) := by
  have hz : ∀ d, 4 ≤ d → d ≤ 255 → gen_divisor baudrate d ≠ 0 := by
    intro d _ hd
    rw [gen_divisor_eq hw hd]
    exact Nat.pos_iff_ne_zero.1 (Nat.mul_pos hpos (by omega))
  obtain ⟨⟨rc, s'⟩, hr⟩ := (setup_isSome_iff bas baudrate clk_ref s).2 hz
  rcases setup_cases (by omega) (by omega) hr with ⟨hrc, hs, _⟩ | ⟨_, d, h4, hd, hg, _⟩
  · rw [hr, hrc, hs]
  · exfalso
    have h1 := hg.1
    rw [calc_baudgen_eq hw (by omega) hd] at h1
    unfold spec_generator at h1
    have h5 : baudrate * 5 ≤ baudrate * (d + 1) := Nat.mul_le_mul_left _ (by omega)
    have hdpos : 0 < baudrate * (d + 1) := Nat.mul_pos hpos (by omega)
    have := (Nat.le_div_iff_mul_le hdpos).1 h1
    omega

/-- Witness of the amended C5: 115200 baud from a 250 kHz clock. -/
theorem setup_fails_below_half_of_first_divisor_witness :
    setup_zynq_uartps 0x1000 115200 250000 uart_static_init = some (-1, uart_static_init) :=
  setup_fails_below_half_of_first_divisor 0x1000 115200 250000 uart_static_init
    (by decide) (by decide) (by decide)

/-- C10: the search is not total on the code.  For the positive 32-bit
`baudrate = 2^31` and `clk_ref = 100000000` the first divisor
`baudrate * (bauddiv + 1)` wraps to zero at `bauddiv = 5` and the call divides
by zero instead of ending with 0 or -1; a device tree with
`current-speed = 0x80000000` and a 100 MHz clock drives console initialisation
into that division. -/
theorem setup_divides_by_zero :
    0 < 2147483648 ∧ 2147483648 < 4294967296 ∧ 0 < 100000000 ∧ 100000000 < 4294967296 ∧
      gen_divisor 2147483648 4 ≠ 0 ∧ calc_baudgen 2147483648 100000000 4 = 0 ∧
      gen_divisor 2147483648 5 = 0 ∧
      setup_zynq_uartps 0x1000 2147483648 100000000 uart_static_init = none ∧
      _libplat_init_console fdt_speed_2_31 uart_static_init =
        Boot.div_by_zero (init_zynq_uartps 0x1000
          { uart_static_init with
            uart_bas := 0x1000, baud_rate := -2147483648, clock_rate := 100000000 }) := by
  decide

/-- For a multiple of `2^24` the first divisor is zero at `bauddiv = 255` and
the call divides by zero. -/
theorem setup_none_of_multiple (bas baudrate clk_ref : Nat) (s : Uart)
    (hm : baudrate % 16777216 = 0) : setup_zynq_uartps bas baudrate clk_ref s = none := by
  cases hr : setup_zynq_uartps bas baudrate clk_ref s with
  | none => rfl
  | some r =>
    exfalso
    have hz := (setup_isSome_iff bas baudrate clk_ref s).1 ⟨r, hr⟩ 255 (by omega) (by omega)
    apply hz
    unfold gen_divisor
    omega

/-- Where the search is total: for every 32-bit `baudrate` that is not a
multiple of `2^24` (in particular every positive baud rate below `2^24`) and
every 32-bit `clk_ref`, both divisors are non-zero in every iteration where
they are used and the call ends with 0 or -1. -/
theorem setup_total (bas baudrate clk_ref : Nat) (s : Uart)
    (hb : baudrate < 4294967296) (hc : clk_ref < 4294967296)
    (hm : baudrate % 16777216 ≠ 0) :
    (∀ d, 4 ≤ d → d ≤ 255 → gen_divisor baudrate d ≠ 0 ∧
      (gen_ok (calc_baudgen baudrate clk_ref d) →
        out_divisor (calc_baudgen baudrate clk_ref d) d ≠ 0)) ∧
    ∃ rc s', setup_zynq_uartps bas baudrate clk_ref s = some (rc, s') ∧
      (rc = 0 ∨ rc = -1) := by
  have hz : ∀ d, 4 ≤ d → d ≤ 255 → gen_divisor baudrate d ≠ 0 :=
    fun d _ hd => gen_divisor_ne_zero hm hd
  refine ⟨fun d h4 hd => ⟨hz d h4 hd, fun hg =>
    Nat.pos_iff_ne_zero.1 (out_divisor_pos hg hd)⟩, ?_⟩
  obtain ⟨⟨rc, s'⟩, hr⟩ := (setup_isSome_iff bas baudrate clk_ref s).2 hz
  refine ⟨rc, s', hr, ?_⟩
  rcases setup_cases hb hc hr with ⟨hrc, _⟩ | ⟨hrc, _⟩
  · exact Or.inr hrc
  · exact Or.inl hrc

/-- The search is total at 115200 baud with a 100 MHz reference clock. -/
theorem setup_total_witness :
    (∀ d, 4 ≤ d → d ≤ 255 → gen_divisor 115200 d ≠ 0 ∧
      (gen_ok (calc_baudgen 115200 100000000 d) →
        out_divisor (calc_baudgen 115200 100000000 d) d ≠ 0)) ∧
    ∃ rc s', setup_zynq_uartps 0x1000 115200 100000000 uart_static_init = some (rc, s') ∧
      (rc = 0 ∨ rc = -1) :=
  setup_total 0x1000 115200 100000000 uart_static_init (by decide) (by decide) (by decide)

/-! ## Character I/O before the driver is ready -/

theorem xuartps_putc_not_ready (hw : Hardware) (fuel a : Nat) (s : Uart)
    (h : s.uart_initialized = 0) : xuartps_putc hw fuel a s = some s := by
  simp [xuartps_putc, h]

theorem coutk_loop_not_ready (hw : Hardware) (fuel : Nat) (buf : Nat → Nat) (s : Uart)
    (h : s.uart_initialized = 0) :
    ∀ (n i : Nat), coutk_loop hw fuel buf n i s = some s := by
  intro n
  induction n with
  | zero => intro i; rfl
  | succ n ih =>
    intro i
    rw [coutk_loop, xuartps_putc_not_ready hw fuel _ s h]
    exact ih (i + 1)

/-- C6 fails as stated: before the driver is ready a one-byte `ukplat_coutk`
(and `ukplat_coutd`) touches no register but returns 1, not 0. -/
theorem coutk_not_ready_returns_len :
    uart_static_init.uart_initialized = 0 ∧
      ukplat_coutk hw_zero 0 buf_A 1 uart_static_init = some (1, uart_static_init) ∧
      ukplat_coutd hw_zero 0 buf_A 1 uart_static_init = some (1, uart_static_init) := by
  decide

/-- C6 amended: while the driver is not ready, for every buffer and every
`len`, `ukplat_coutk` and `ukplat_coutd` return without any register read or
write (the state, log included, is unchanged) and return `len` converted to
`int`, which is `len` itself when `len < 2^31`. -/
theorem coutk_not_ready (hw : Hardware) (fuel : Nat) (buf : Nat → Nat) (len : Nat) (s : Uart)
    (h : s.uart_initialized = 0) :
    ukplat_coutk hw fuel buf len s = some (to_int len, s) ∧
      ukplat_coutd hw fuel buf len s = some (to_int len, s) ∧
      (len < 2147483648 → to_int len = (len : Int)) := by
  have hk : ukplat_coutk hw fuel buf len s = some (to_int len, s) := by
    unfold ukplat_coutk
    rw [coutk_loop_not_ready hw fuel buf s h]
  refine ⟨hk, hk, ?_⟩
  intro hlt
  unfold to_int
  have e : len % 4294967296 = len := Nat.mod_eq_of_lt (by omega)
  rw [e, if_pos hlt]

/-- Witness of the amended C6. -/
theorem coutk_not_ready_witness :
    ukplat_coutk hw_zero 0 buf_A 3 uart_static_init = some (to_int 3, uart_static_init) ∧
      ukplat_coutd hw_zero 0 buf_A 3 uart_static_init = some (to_int 3, uart_static_init) ∧
      (3 < 2147483648 → to_int 3 = ((3 : Nat) : Int)) :=
  coutk_not_ready hw_zero 0 buf_A 3 uart_static_init (by decide)

/-- C7: while the driver is not ready, for every `maxlen`, `ukplat_cink`
returns 0, performs no register read or write (the state, log included, is
unchanged) and leaves the buffer unchanged. -/
theorem cink_not_ready (hw : Hardware) (buf : Nat → Nat) (maxlen : Nat) (s : Uart)
    (h : s.uart_initialized = 0) :
    ukplat_cink hw buf maxlen s = (0, buf, s) := by
  have hg : xuartps_getc hw s = (-1, s) := by simp [xuartps_getc, h]
  unfold ukplat_cink
  cases maxlen with
  | zero => rfl
  | succ n =>
    have hl : cink_loop hw (n + 1) 0 buf s = (0, buf, s) := by
      rw [cink_loop, hg]
      simp
    rw [hl]
    rfl

/-- Witness of C7. -/
theorem cink_not_ready_witness :
    ukplat_cink hw_zero buf_A 16 uart_static_init = (0, buf_A, uart_static_init) :=
  cink_not_ready hw_zero buf_A 16 uart_static_init (by decide)

/-! ## Console discovery without a `clocks` property -/

/-- C9 fails as stated: a tree whose UART node lacks the `clocks` property and
also lacks `reg` ends in the crash for the bad `reg` property, not in the one
for the missing clock. -/
theorem init_console_no_clocks_other_crash :
    fdt_no_props.getprop (fdt_no_props.node_offset_by_compatible (-1) "xlnx,xuartps")
        "clocks" = none ∧
      _libplat_init_console fdt_no_props uart_static_init =
        Boot.crash Crash.bad_reg uart_static_init ∧
      _libplat_init_console fdt_no_props uart_static_init ≠
        Boot.crash Crash.clock_not_found uart_static_init := by
  refine ⟨rfl, by decide, by decide⟩

/-- C9 amended: with `uart_initialized = 0`, for every tree in which the
lookup of the `clocks` property of the UART node finds nothing, console
initialisation ends in a fatal crash with no register read or written and
`uart_initialized` left at 0.  The crash is the one of the first check that
fails, in source order: no console node; unsupported address-cell count;
unsupported size-cell count; `reg` absent or too short; and, when all of these
pass (and only then), the missing clock. -/
theorem init_console_no_clocks (fdt : Fdt) (s : Uart)
    (h0 : s.uart_initialized = 0)
    (h : fdt.getprop (fdt.node_offset_by_compatible (-1) "xlnx,xuartps") "clocks" = none) :
    ∃ c s', _libplat_init_console fdt s = Boot.crash c s' ∧
      s'.log = s.log ∧ s'.uart_initialized = 0 ∧
      (uart_node fdt < 0 → c = Crash.no_console_uart) ∧
      (0 ≤ uart_node fdt → address_cells_bad fdt → c = Crash.bad_address_cells) ∧
      (0 ≤ uart_node fdt → ¬ address_cells_bad fdt → size_cells_bad fdt →
        c = Crash.bad_size_cells) ∧
      (0 ≤ uart_node fdt → ¬ address_cells_bad fdt → ¬ size_cells_bad fdt → reg_bad fdt →
        c = Crash.bad_reg) ∧
      (0 ≤ uart_node fdt → ¬ address_cells_bad fdt → ¬ size_cells_bad fdt → ¬ reg_bad fdt →
        c = Crash.clock_not_found) ∧
      (c = Crash.clock_not_found ↔ reg_checks_pass fdt) := by
  unfold reg_checks_pass reg_bad size_cells_bad address_cells_bad uart_node
    _libplat_init_console
  generalize fdt.node_offset_by_compatible (-1) "xlnx,xuartps" = offset at h ⊢
  simp only []
  by_cases h1 : offset < 0
  · refine ⟨Crash.no_console_uart, s, by simp [h1], rfl, h0, fun _ => rfl, ?_, ?_, ?_, ?_, ?_⟩
    · intro h; omega
    · intro h; omega
    · intro h; omega
    · intro h; omega
    · constructor
      · intro hc; cases hc
      · rintro ⟨h, _⟩; omega
  · by_cases h2 : fdt.address_cells offset < 0 ∨ fdt.address_cells offset ≥ fdt.max_ncells
    · refine ⟨Crash.bad_address_cells, s, by simp only [h1, h2, if_false, if_true], rfl, h0,
        ?_, fun _ _ => rfl, ?_, ?_, ?_, ?_⟩
      · intro h; omega
      · intro _ hn; exact absurd h2 hn
      · intro _ hn; exact absurd h2 hn
      · intro _ hn; exact absurd h2 hn
      · constructor
        · intro hc; cases hc
        · rintro ⟨_, h, _⟩; omega
    · by_cases h3 : fdt.size_cells offset < 0 ∨ fdt.size_cells offset ≥ fdt.max_ncells
      · refine ⟨Crash.bad_size_cells, s, by simp only [h1, h2, h3, if_false, if_true],
          rfl, h0, ?_, ?_, fun _ _ _ => rfl, ?_, ?_, ?_⟩
        · intro h; omega
        · intro _ hb; exact absurd hb h2
        · intro _ _ hn; exact absurd h3 hn
        · intro _ _ hn; exact absurd h3 hn
        · constructor
          · intro hc; cases hc
          · rintro ⟨_, _, h, _⟩; omega
      · cases hreg : fdt.getprop offset "reg" with
        | none =>
          refine ⟨Crash.bad_reg, s, by simp only [h1, h2, h3, if_false], rfl, h0,
            ?_, ?_, ?_, fun _ _ _ _ => rfl, ?_, ?_⟩
          · intro h; omega
          · intro _ hb; exact absurd hb h2
          · intro _ _ hb; exact absurd hb h3
          · intro _ _ _ hn
            exact absurd (fun regs hr => by cases hr) hn
          · constructor
            · intro hc; cases hc
            · rintro ⟨_, _, _, regs, hr, _⟩; cases hr
        | some regs =>
          by_cases h4 : regs.len < 4 * (fdt.address_cells offset + fdt.size_cells offset)
          · refine ⟨Crash.bad_reg, s, by simp only [h1, h2, h3, h4, if_false, if_true],
              rfl, h0, ?_, ?_, ?_, fun _ _ _ _ => rfl, ?_, ?_⟩
            · intro h; omega
            · intro _ hb; exact absurd hb h2
            · intro _ _ hb; exact absurd hb h3
            · intro _ _ _ hn
              exact absurd (fun regs' hr => by cases hr; exact h4) hn
            · constructor
              · intro hc; cases hc
              · rintro ⟨_, _, _, regs', hr, hlen⟩
                cases hr
                omega
          · refine ⟨Crash.clock_not_found,
              (match fdt.getprop offset "current-speed" with
                | none => { s with uart_bas := fdt.to_reg (regs.cell64 0), baud_rate := 115200 }
                | some baud_rate_ref =>
                  { s with uart_bas := fdt.to_reg (regs.cell64 0),
                           baud_rate := to_int (baud_rate_ref.cell32 0) }),
              ?_, ?_, ?_, ?_, ?_, ?_, ?_, fun _ _ _ _ => rfl, ?_⟩
            · simp only [h1, h2, h3, h4, h, if_false]
            · cases fdt.getprop offset "current-speed" <;> rfl
            · cases fdt.getprop offset "current-speed" <;> exact h0
            · intro h; omega
            · intro _ hb; exact absurd hb h2
            · intro _ _ hb; exact absurd hb h3
            · intro _ _ _ hb
              exact absurd (hb regs rfl) h4
            · constructor
              · intro _
                exact ⟨by omega, by omega, by omega, regs, rfl, by omega⟩
              · intro _
                rfl

/-- Witness of the amended C9: a tree with a well-formed `reg` property and no
`clocks` property ends in the crash for the missing clock. -/
theorem init_console_no_clocks_witness :
    (∃ c s', _libplat_init_console fdt_reg_only uart_static_init = Boot.crash c s' ∧
      s'.log = uart_static_init.log ∧ s'.uart_initialized = 0 ∧
      (uart_node fdt_reg_only < 0 → c = Crash.no_console_uart) ∧
      (0 ≤ uart_node fdt_reg_only → address_cells_bad fdt_reg_only →
        c = Crash.bad_address_cells) ∧
      (0 ≤ uart_node fdt_reg_only → ¬ address_cells_bad fdt_reg_only →
        size_cells_bad fdt_reg_only → c = Crash.bad_size_cells) ∧
      (0 ≤ uart_node fdt_reg_only → ¬ address_cells_bad fdt_reg_only →
        ¬ size_cells_bad fdt_reg_only → reg_bad fdt_reg_only → c = Crash.bad_reg) ∧
      (0 ≤ uart_node fdt_reg_only → ¬ address_cells_bad fdt_reg_only →
        ¬ size_cells_bad fdt_reg_only → ¬ reg_bad fdt_reg_only →
        c = Crash.clock_not_found) ∧
      (c = Crash.clock_not_found ↔ reg_checks_pass fdt_reg_only)) ∧
    _libplat_init_console fdt_reg_only uart_static_init =
      Boot.crash Crash.clock_not_found
        { uart_static_init with uart_bas := 0x1000, baud_rate := 115200 } :=
  ⟨init_console_no_clocks fdt_reg_only uart_static_init (by decide)
    (by simp [fdt_reg_only]), by decide⟩

/-! ## Character input once the driver is ready -/

theorem rx_avail_le (stat : Nat → Nat) : ∀ bound start, rx_avail stat bound start ≤ bound := by
  intro bound
  induction bound with
  | zero => intro start; simp [rx_avail]
  | succ b ih =>
    intro start
    rw [rx_avail]
    split
    · omega
    · have := ih (start + 1)
      omega

theorem rx_avail_clear (stat : Nat → Nat) :
    ∀ bound start i, i < rx_avail stat bound start → rx_empty (stat (start + i)) = false := by
  intro bound
  induction bound with
  | zero => intro start i h; simp [rx_avail] at h
  | succ b ih =>
    intro start i h
    rw [rx_avail] at h
    by_cases he : rx_empty (stat start) = true
    · simp [he] at h
    · simp only [he] at h
      cases i with
      | zero => simpa using he
      | succ i =>
        have := ih (start + 1) i (by simp at h; omega)
        have e : start + 1 + i = start + (i + 1) := by omega
        rw [e] at this
        exact this

theorem rx_avail_stop (stat : Nat → Nat) :
    ∀ bound start, rx_avail stat bound start < bound →
      rx_empty (stat (start + rx_avail stat bound start)) = true := by
  intro bound
  induction bound with
  | zero => intro start h; simp [rx_avail] at h
  | succ b ih =>
    intro start h
    rw [rx_avail] at h ⊢
    by_cases he : rx_empty (stat start) = true
    · simp [he]
    · simp only [he] at h ⊢
      have := ih (start + 1) (by simp at h; omega)
      have e : start + (1 + rx_avail stat b (start + 1)) =
          start + 1 + rx_avail stat b (start + 1) := by omega
      simp only [Bool.false_eq_true, if_false]
      rw [e]
      exact this

theorem rx_avail_never_empty (stat : Nat → Nat) (h : ∀ i, rx_empty (stat i) = false) :
    ∀ bound start, rx_avail stat bound start = bound := by
  intro bound
  induction bound with
  | zero => intro start; rfl
  | succ b ih =>
    intro start
    rw [rx_avail, h start, ih (start + 1)]
    simp
    omega

theorem and_0xff (x : Nat) : x &&& 0xff = x % 256 :=
  Nat.and_pow_two_sub_one_eq_mod x 8

theorem byte_toNat (x : Nat) : (((x % 256 : Nat) : Int) % 256).toNat = x % 256 := by
  have h : ((x % 256 : Nat) : Int) % 256 = ((x % 256 : Nat) : Int) := by omega
  rw [h]
  exact Int.toNat_ofNat (x % 256)

theorem reads_of_append (addr : Nat) (l1 l2 : List IoEvent) :
    reads_of addr (l1 ++ l2) = reads_of addr l1 + reads_of addr l2 := by
  simp [reads_of]

theorem reads_of_cink_events (sa fa : Nat) (stat fifo : Nat → Nat) (hne : sa ≠ fa) :
    ∀ n i j, reads_of sa (cink_events sa fa stat fifo n i j) = n ∧
      reads_of fa (cink_events sa fa stat fifo n i j) = n := by
  intro n
  induction n with
  | zero => intro i j; simp [cink_events, reads_of]
  | succ n ih =>
    intro i j
    have h1 := (ih (i + 1) (j + 1)).1
    have h2 := (ih (i + 1) (j + 1)).2
    unfold reads_of at h1 h2 ⊢
    have hne' : fa ≠ sa := fun h => hne h.symm
    simp [cink_events, List.countP_cons, is_read_of, h1, h2, hne, hne']

theorem stat_ne_fifo (s : Uart) : stat_addr s ≠ fifo_addr s := by
  unfold stat_addr fifo_addr CDNC_UART_CHAN_STAT_OFF CDNC_UART_FIFO_OFF
  omega

theorem xuartps_getc_empty (hw : Hardware) (s : Uart) (h : s.uart_initialized ≠ 0)
    (he : rx_empty (hw (stat_addr s) (reads_of (stat_addr s) s.log)) = true) :
    xuartps_getc hw s = (-1, { s with log := s.log ++ [IoEvent.read (stat_addr s)
      (hw (stat_addr s) (reads_of (stat_addr s) s.log) % 4294967296)] }) := by
  unfold rx_empty at he
  have he' := of_decide_eq_true he
  unfold stat_addr at he' ⊢
  unfold xuartps_getc ioreg_read32
  simp only [h, if_false]
  rw [if_pos he']

theorem xuartps_getc_data (hw : Hardware) (s : Uart) (h : s.uart_initialized ≠ 0)
    (he : rx_empty (hw (stat_addr s) (reads_of (stat_addr s) s.log)) = false) :
    xuartps_getc hw s =
      (((hw (fifo_addr s) (reads_of (fifo_addr s) s.log) % 4294967296 % 256 : Nat) : Int),
        { s with log := s.log ++ [IoEvent.read (stat_addr s)
            (hw (stat_addr s) (reads_of (stat_addr s) s.log) % 4294967296),
          IoEvent.read (fifo_addr s)
            (hw (fifo_addr s) (reads_of (fifo_addr s) s.log) % 4294967296)] }) := by
  unfold rx_empty at he
  have he' := of_decide_eq_false he
  have hcnt : reads_of (s.uart_bas + CDNC_UART_FIFO_OFF) (s.log ++ [IoEvent.read (stat_addr s)
      (hw (stat_addr s) (reads_of (stat_addr s) s.log) % 4294967296)]) =
      reads_of (fifo_addr s) s.log := by
    have := stat_ne_fifo s
    rw [reads_of_append]
    simp [reads_of, List.countP_cons, is_read_of, this, fifo_addr]
    exact this
  unfold stat_addr at he' hcnt ⊢
  unfold fifo_addr at hcnt ⊢
  unfold xuartps_getc ioreg_read32
  simp only [h, if_false]
  rw [if_neg he']
  simp only [hcnt, and_0xff, List.append_assoc, List.singleton_append]

theorem cink_count_zero (hw : Hardware) (s : Uart) : cink_count hw 0 s = 0 := rfl

theorem cink_count_empty (hw : Hardware) (room : Nat) (s : Uart)
    (he : rx_empty (hw (stat_addr s) (reads_of (stat_addr s) s.log)) = true) :
    cink_count hw (room + 1) s = 0 := by
  simp [cink_count, rx_avail, he]

theorem cink_count_data (hw : Hardware) (room : Nat) (s : Uart)
    (he : rx_empty (hw (stat_addr s) (reads_of (stat_addr s) s.log)) = false) :
    cink_count hw (room + 1) s =
      rx_avail (hw (stat_addr s)) room (reads_of (stat_addr s) s.log + 1) + 1 := by
  simp [cink_count, rx_avail, he]
  omega

/-- What the loop of `ukplat_cink` does once the driver is ready. -/
theorem cink_loop_ready (hw : Hardware) :
    ∀ (room num : Nat) (buf : Nat → Nat) (s : Uart), s.uart_initialized ≠ 0 →
      (cink_loop hw room num buf s).1 = num + cink_count hw room s ∧
      (cink_loop hw room num buf s).2.2 =
        { s with log := (s.log ++
            cink_events (stat_addr s) (fifo_addr s) (hw (stat_addr s)) (hw (fifo_addr s))
              (cink_count hw room s) (reads_of (stat_addr s) s.log)
              (reads_of (fifo_addr s) s.log) ++
            cink_last_read hw room s) } ∧
      (∀ j, j < cink_count hw room s →
        (cink_loop hw room num buf s).2.1 (num + j) =
          hw (fifo_addr s) (reads_of (fifo_addr s) s.log + j) % 4294967296 % 256) ∧
      (∀ j, j < num ∨ num + cink_count hw room s ≤ j →
        (cink_loop hw room num buf s).2.1 j = buf j) := by
  intro room
  induction room with
  | zero =>
    intro num buf s _
    refine ⟨rfl, ?_, ?_, ?_⟩
    · simp [cink_loop, cink_count_zero, cink_events, cink_last_read]
    · intro j hj
      simp [cink_count_zero] at hj
    · intro j _
      rfl
  | succ room ih =>
    intro num buf s hs
    by_cases he : rx_empty (hw (stat_addr s) (reads_of (stat_addr s) s.log)) = true
    · have hg := xuartps_getc_empty hw s hs he
      have hc := cink_count_empty hw room s he
      have hl : cink_loop hw (room + 1) num buf s = (num, buf, (xuartps_getc hw s).2) := by
        rw [cink_loop]
        simp [hg]
      rw [hl, hc]
      refine ⟨rfl, ?_, ?_, ?_⟩
      · simp [hg, cink_events, cink_last_read, hc]
      · intro j hj
        omega
      · intro j _
        rfl
    · have he' : rx_empty (hw (stat_addr s) (reads_of (stat_addr s) s.log)) = false := by
        simpa using he
      have hg := xuartps_getc_data hw s hs he'
      have hc := cink_count_data hw room s he'
      have hne := stat_ne_fifo s
      have hne' : fifo_addr s ≠ stat_addr s := fun h => hne h.symm
      generalize hs2 : (xuartps_getc hw s).2 = s2 at *
      have hlog : s2.log = s.log ++ [IoEvent.read (stat_addr s)
            (hw (stat_addr s) (reads_of (stat_addr s) s.log) % 4294967296),
          IoEvent.read (fifo_addr s)
            (hw (fifo_addr s) (reads_of (fifo_addr s) s.log) % 4294967296)] := by
        rw [← hs2, hg]
      have hinit : s2.uart_initialized ≠ 0 := by
        rw [← hs2, hg]
        exact hs
      have hsa : stat_addr s2 = stat_addr s := by
        rw [← hs2, hg]
        rfl
      have hfa : fifo_addr s2 = fifo_addr s := by
        rw [← hs2, hg]
        rfl
      have hcs : reads_of (stat_addr s) s2.log = reads_of (stat_addr s) s.log + 1 := by
        rw [hlog, reads_of_append]
        simp [reads_of, List.countP_cons, is_read_of, hne, hne']
      have hcf : reads_of (fifo_addr s) s2.log = reads_of (fifo_addr s) s.log + 1 := by
        rw [hlog, reads_of_append]
        simp [reads_of, List.countP_cons, is_read_of, hne, hne']
      have hc2 : cink_count hw room s2 =
          rx_avail (hw (stat_addr s)) room (reads_of (stat_addr s) s.log + 1) := by
        unfold cink_count
        rw [hsa, hcs]
      have hl : cink_loop hw (room + 1) num buf s =
          cink_loop hw room (num + 1)
            (buf_store buf num
              (hw (fifo_addr s) (reads_of (fifo_addr s) s.log) % 4294967296 % 256)) s2 := by
        rw [cink_loop]
        simp only [hs2]
        rw [hg]
        have hnn : ((hw (fifo_addr s) (reads_of (fifo_addr s) s.log) % 4294967296 % 256 : Nat) :
            Int) ≥ 0 := Int.ofNat_nonneg _
        simp only [hnn, if_true]
        rw [byte_toNat]
      obtain ⟨i1, i2, i3, i4⟩ := ih (num + 1)
        (buf_store buf num (hw (fifo_addr s) (reads_of (fifo_addr s) s.log) % 4294967296 % 256))
        s2 hinit
      rw [hl, hc]
      rw [hc2] at i1 i3 i4
      refine ⟨by rw [i1]; omega, ?_, ?_, ?_⟩
      · have hs2eq : s2 = { s with log := s.log ++ [IoEvent.read (stat_addr s)
              (hw (stat_addr s) (reads_of (stat_addr s) s.log) % 4294967296),
            IoEvent.read (fifo_addr s)
              (hw (fifo_addr s) (reads_of (fifo_addr s) s.log) % 4294967296)] } := by
          rw [← hs2, hg]
        have hlast : cink_last_read hw room s2 = cink_last_read hw (room + 1) s := by
          unfold cink_last_read
          rw [hc, hc2, hsa, hcs]
          have e : reads_of (stat_addr s) s.log + 1 +
              rx_avail (hw (stat_addr s)) room (reads_of (stat_addr s) s.log + 1) =
              reads_of (stat_addr s) s.log +
                (rx_avail (hw (stat_addr s)) room (reads_of (stat_addr s) s.log + 1) + 1) := by
            omega
          rw [e]
          simp only [Nat.add_lt_add_iff_right]
        rw [i2, hlast, hsa, hfa, hcs, hcf, hc2, cink_events, hs2eq]
        simp only [List.append_assoc, List.cons_append, List.nil_append]
      · intro j hj
        cases j with
        | zero =>
          have h0 := i4 num (Or.inl (by omega))
          simpa [buf_store] using h0
        | succ j =>
          have := i3 j (by omega)
          rw [hfa, hcf] at this
          have e1 : num + (j + 1) = num + 1 + j := by omega
          have e2 : reads_of (fifo_addr s) s.log + (j + 1) =
              reads_of (fifo_addr s) s.log + 1 + j := by omega
          rw [e1, e2]
          exact this
      · intro j hj
        rw [i4 j (by omega)]
        have : j ≠ num := by omega
        simp [buf_store, this]

/-- C8 fails as stated: with `maxlen = 2^31` and a receive FIFO that never
reports empty, `min(maxlen, k)` is `2^31` but the value returned through the
`int` result is `-2^31`. -/
theorem cink_large_count_wraps :
    uart_ready.uart_initialized ≠ 0 ∧
      (∀ i, rx_empty (hw_zero (stat_addr uart_ready) i) = false) ∧
      cink_count hw_zero 2147483648 uart_ready = 2147483648 ∧
      (ukplat_cink hw_zero buf_A 2147483648 uart_ready).1 = -2147483648 := by
  have hnever : ∀ i, rx_empty (hw_zero (stat_addr uart_ready) i) = false := by
    intro i
    show rx_empty 0 = false
    decide
  have hcount : cink_count hw_zero 2147483648 uart_ready = 2147483648 :=
    rx_avail_never_empty _ hnever _ _
  refine ⟨by decide, hnever, hcount, ?_⟩
  have h1 := (cink_loop_ready hw_zero 2147483648 0 buf_A uart_ready (by decide)).1
  unfold ukplat_cink
  simp only []
  rw [h1, hcount]
  decide

/-- C8 amended: with the driver ready, for every `maxlen` and every answers of
the hardware, `ukplat_cink` delivers `n = min(maxlen, k)` bytes, where `k`
counts the status reads with the receive-FIFO-empty bit clear before the first
one with it set: it performs `n` status-read/FIFO-read pairs followed, when
`n < maxlen`, by one last status read (at most `maxlen + 1` status reads),
stores the low 8 bits of the `n` FIFO words in the first `n` buffer bytes in
order, leaves the rest of the buffer unchanged, and returns `n` converted to
`int`, which is `n` itself when `n < 2^31`.  When the first status read reports
the receive FIFO empty it returns 0 for every `maxlen`. -/
theorem cink_ready (hw : Hardware) (buf : Nat → Nat) (maxlen : Nat) (s : Uart)
    (h : s.uart_initialized ≠ 0) :
    cink_count hw maxlen s ≤ maxlen ∧
    (∀ i, i < cink_count hw maxlen s →
      rx_empty (hw (stat_addr s) (reads_of (stat_addr s) s.log + i)) = false) ∧
    (cink_count hw maxlen s < maxlen →
      rx_empty (hw (stat_addr s) (reads_of (stat_addr s) s.log + cink_count hw maxlen s))
        = true) ∧
    (ukplat_cink hw buf maxlen s).1 = to_int (cink_count hw maxlen s) ∧
    (cink_count hw maxlen s < 2147483648 →
      (ukplat_cink hw buf maxlen s).1 = (cink_count hw maxlen s : Int)) ∧
    (ukplat_cink hw buf maxlen s).2.2 =
      { s with log := (s.log ++
          cink_events (stat_addr s) (fifo_addr s) (hw (stat_addr s)) (hw (fifo_addr s))
            (cink_count hw maxlen s) (reads_of (stat_addr s) s.log)
            (reads_of (fifo_addr s) s.log) ++
          cink_last_read hw maxlen s) } ∧
    reads_of (stat_addr s) (ukplat_cink hw buf maxlen s).2.2.log =
      reads_of (stat_addr s) s.log + cink_count hw maxlen s +
        (if cink_count hw maxlen s < maxlen then 1 else 0) ∧
    reads_of (stat_addr s) (ukplat_cink hw buf maxlen s).2.2.log ≤
      reads_of (stat_addr s) s.log + (maxlen + 1) ∧
    (∀ j, j < cink_count hw maxlen s →
      (ukplat_cink hw buf maxlen s).2.1 j =
        hw (fifo_addr s) (reads_of (fifo_addr s) s.log + j) % 4294967296 % 256) ∧
    (∀ j, cink_count hw maxlen s ≤ j → (ukplat_cink hw buf maxlen s).2.1 j = buf j) ∧
    (rx_empty (hw (stat_addr s) (reads_of (stat_addr s) s.log)) = true →
      (ukplat_cink hw buf maxlen s).1 = 0) := by
  obtain ⟨l1, l2, l3, l4⟩ := cink_loop_ready hw maxlen 0 buf s h
  have hle : cink_count hw maxlen s ≤ maxlen := rx_avail_le _ _ _
  have hret : (ukplat_cink hw buf maxlen s).1 = to_int (cink_count hw maxlen s) := by
    unfold ukplat_cink
    simp only []
    rw [l1, Nat.zero_add]
  have hstate : (ukplat_cink hw buf maxlen s).2.2 = (cink_loop hw maxlen 0 buf s).2.2 := rfl
  have hbuf : (ukplat_cink hw buf maxlen s).2.1 = (cink_loop hw maxlen 0 buf s).2.1 := rfl
  have hreads : reads_of (stat_addr s) (ukplat_cink hw buf maxlen s).2.2.log =
      reads_of (stat_addr s) s.log + cink_count hw maxlen s +
        (if cink_count hw maxlen s < maxlen then 1 else 0) := by
    rw [hstate, l2]
    simp only [reads_of_append, (reads_of_cink_events _ _ _ _ (stat_ne_fifo s) _ _ _).1]
    unfold cink_last_read
    split
    · simp [reads_of, List.countP_cons, is_read_of]
    · simp [reads_of]
  refine ⟨hle, rx_avail_clear _ _ _, rx_avail_stop _ _ _, hret, ?_, ?_, hreads, ?_, ?_, ?_, ?_⟩
  · intro hlt
    rw [hret]
    unfold to_int
    have e : cink_count hw maxlen s % 4294967296 = cink_count hw maxlen s :=
      Nat.mod_eq_of_lt (by omega)
    rw [e, if_pos hlt]
  · rw [hstate, l2]
  · rw [hreads]
    split <;> omega
  · intro j hj
    have := l3 j hj
    rw [Nat.zero_add] at this
    rw [hbuf]
    exact this
  · intro j hj
    rw [hbuf]
    exact l4 j (Or.inr (by omega))
  · intro he
    rw [hret]
    cases maxlen with
    | zero => rfl
    | succ m =>
      rw [cink_count_empty hw m s he]
      rfl

/-- Witness of the amended C8: two bytes are read into a four-byte window. -/
theorem cink_ready_witness :
    (ukplat_cink hw_two_bytes buf_A 4 uart_ready).1 = 2 ∧
    (ukplat_cink hw_two_bytes buf_A 4 uart_ready).2.1 0 = 0x68 ∧
    (ukplat_cink hw_two_bytes buf_A 4 uart_ready).2.1 1 = 0x69 ∧
    (ukplat_cink hw_two_bytes buf_A 4 uart_ready).2.1 2 = 65 ∧
    (ukplat_cink hw_two_bytes buf_A 4 uart_ready).2.2.log =
      [IoEvent.read 0x100b 0, IoEvent.read 0x100c 0x168, IoEvent.read 0x100b 0,
       IoEvent.read 0x100c 0x69, IoEvent.read 0x100b 2] ∧
    cink_count hw_two_bytes 4 uart_ready = 2 ∧
    (ukplat_cink hw_two_bytes buf_A 4 uart_ready).1 =
      to_int (cink_count hw_two_bytes 4 uart_ready) :=
  ⟨by decide, by decide, by decide, by decide, by decide, by decide,
   (cink_ready hw_two_bytes buf_A 4 uart_ready (by decide)).2.2.2.1⟩

end XUartPs
